import Mathlib

/-! Transaction submission pipeline of `golang/jsonrpc/client.go`.

A shallow embedding of `EthSendTransaction` and `EthSendDynamicFeeTx`.

* A `*big.Int` argument or query result is an `Option Int`, `none` being `nil`; a byte
  slice is `Option (List Nat)`, `none` being the nil slice.
* The `*big.Int` fields of the `types.DynamicFeeTx` value that the dynamic-fee overrides
  receive are pointers into a heap of big integers: an override may assign a field and
  may change, in place, the big integer a field points to. The field `ChainID` starts
  as the very pointer the local variable `chainId` holds (lines 161 and 166).
* `uint64` values are natural numbers; the only conversion the source performs
  (`uint64(v.Int64())`) is modelled with explicit reduction modulo `2^64`.
* The node (`eth_client`) and the key store (`ks`) are records of outcome functions.
  Every call made to one of them is appended to a trace, so that the order and
  the arguments of the collaborator calls can be stated.
* The factory (`types.NewTransaction`, `types.NewTx`) stores a copy of its argument in
  which a nil big integer has become 0; the argument itself is recorded next to the
  trace, so that what is handed to the factory and what is handed to the signer can be
  told apart.
* A Go result `(v, err)` is an `Except Err`, a lone `error` is an `Option Err`.
-/

namespace Jsonrpc

/-! ## Data model -/

/-- An account address (`common.Address`), identified by its hexadecimal form. -/
structure Address where
  Hex : String
deriving DecidableEq, Repr

/-- The `accounts.Account` pair of an address and a key-file locator. -/
structure Account where
  Address : Address
  URL : String
deriving DecidableEq, Repr

/-- Error values: those produced by a collaborator (`external`) and the three
constructors of `github.com/pkg/errors` the source uses. -/
inductive Err where
  | external (code : Nat)
  | New (message : String)
  | WithStack (err : Err)
  | Wrap (err : Err) (message : String)
deriving DecidableEq, Repr

/-- The options of the legacy path (`type opt struct`, lines 89-94); the field
defaults are the Go zero value produced by `var opt opt`. -/
structure opt where
  gasPrice : Option Int := none
  gasLimit : Nat := 0
  nonce : Nat := 0
  data : Option (List Nat) := none
deriving DecidableEq, Repr

/-- An override of the legacy path (`type SendTxnOption func(*opt)`). -/
abbrev SendTxnOption := opt → opt

/-- A pointer to a big integer (a non-nil `*big.Int`): the one the chain-id query
returned and the local variable `chainId` holds, the one the caller passed as `amount`,
or any other one. -/
inductive Ptr where
  | chainId
  | amount
  | other (n : Nat)
deriving DecidableEq, Repr

/-- The contents of the big integers. -/
abbrev Heap := Ptr → Int

/-- The heap after the in-place update of one big integer (`p.Set(v)`). -/
def Heap.set (h : Heap) (p : Ptr) (v : Int) : Heap :=
  fun q => if q = p then v else h q

/-- Modelled from the spec: the fields of `types.DynamicFeeTx`, a go-ethereum type that
is not declared in this repository; these are the eight fields the spec lists
(chain identifier, nonce, tip cap, fee cap, gas limit, recipient, value, payload)
under the names the literal at lines 165-174 gives them. The four `*big.Int` fields
hold pointers. -/
structure DynamicFeeTx where
  ChainID : Option Ptr
  Nonce : Nat
  GasTipCap : Option Ptr
  GasFeeCap : Option Ptr
  Gas : Nat
  To : Option Address
  Value : Option Ptr
  Data : Option (List Nat)
deriving DecidableEq, Repr

/-- What an override of the dynamic-fee path can read and write: the parameter value
it receives a pointer to, and the big integers. -/
structure TxnState where
  heap : Heap
  data : DynamicFeeTx

/-- An override of the dynamic-fee path (`type SetTxnData func(*types.DynamicFeeTx)`). -/
abbrev SetTxnData := TxnState → TxnState

/-- The dynamic-fee parameters with every pointer replaced by the big integer it points
to: what `types.NewTx` reads from its argument, and the shape of what it stores. -/
structure DynamicFeeFields where
  ChainID : Option Int
  Nonce : Nat
  GasTipCap : Option Int
  GasFeeCap : Option Int
  Gas : Nat
  To : Option Address
  Value : Option Int
  Data : Option (List Nat)
deriving DecidableEq, Repr

/-- The parameters of a legacy transaction: the arguments of `types.NewTransaction`,
and the shape of what it stores. -/
structure LegacyTx where
  Nonce : Nat
  To : Address
  Value : Option Int
  Gas : Nat
  GasPrice : Option Int
  Data : Option (List Nat)
deriving DecidableEq, Repr

/-- A parameter set: the argument of a factory call, or the content of a transaction. -/
inductive TxData where
  | Legacy (inner : LegacyTx)
  | DynamicFee (inner : DynamicFeeFields)
deriving DecidableEq, Repr

/-- A `types.Transaction`: the parameters it stores and, once signed, an opaque
signature. -/
structure Transaction where
  inner : TxData
  signature : Option (List Nat) := none
deriving DecidableEq, Repr

/-- The parameters read through the pointers of a `types.DynamicFeeTx`. -/
def DynamicFeeTx.deref (h : Heap) (d : DynamicFeeTx) : DynamicFeeFields :=
  { ChainID := d.ChainID.map h, Nonce := d.Nonce, GasTipCap := d.GasTipCap.map h,
    GasFeeCap := d.GasFeeCap.map h, Gas := d.Gas, To := d.To, Value := d.Value.map h,
    Data := d.Data }

/-- The method `copy` of go-ethereum's `LegacyTx`: a nil value or gas price becomes 0. -/
def LegacyTx.copy (tx : LegacyTx) : LegacyTx :=
  { Nonce := tx.Nonce, To := tx.To, Value := some (tx.Value.getD 0), Gas := tx.Gas,
    GasPrice := some (tx.GasPrice.getD 0), Data := tx.Data }

/-- The method `copy` of go-ethereum's `DynamicFeeTx`: a nil chain identifier, tip cap,
fee cap or value becomes 0; a nil recipient or payload stays nil. -/
def DynamicFeeFields.copy (tx : DynamicFeeFields) : DynamicFeeFields :=
  { ChainID := some (tx.ChainID.getD 0), Nonce := tx.Nonce,
    GasTipCap := some (tx.GasTipCap.getD 0), GasFeeCap := some (tx.GasFeeCap.getD 0),
    Gas := tx.Gas, To := tx.To, Value := some (tx.Value.getD 0), Data := tx.Data }

/-- The factory `types.NewTransaction`: the transaction stores a copy of the arguments. -/
def NewTransaction (nonce : Nat) (to_ : Address) (amount : Option Int) (gasLimit : Nat)
    (gasPrice : Option Int) (data : Option (List Nat)) : Transaction :=
  { inner := .Legacy (LegacyTx.copy ⟨nonce, to_, amount, gasLimit, gasPrice, data⟩) }

/-- The factory `types.NewTx` on dynamic-fee parameters: the transaction stores a copy. -/
def NewTx (data : DynamicFeeFields) : Transaction :=
  { inner := .DynamicFee data.copy }

/-- The accessor `Nonce()`. -/
def Transaction.Nonce (tx : Transaction) : Nat :=
  match tx.inner with
  | .Legacy l => l.Nonce
  | .DynamicFee d => d.Nonce

/-- The accessor `Gas()`. -/
def Transaction.Gas (tx : Transaction) : Nat :=
  match tx.inner with
  | .Legacy l => l.Gas
  | .DynamicFee d => d.Gas

/-- The accessor `GasFeeCap()`: the gas price of a legacy transaction, the fee cap of a
dynamic-fee one. -/
def Transaction.GasFeeCap (tx : Transaction) : Option Int :=
  match tx.inner with
  | .Legacy l => l.GasPrice
  | .DynamicFee d => d.GasFeeCap

/-- The accessor `GasTipCap()`: the gas price of a legacy transaction, the tip cap of a
dynamic-fee one. -/
def Transaction.GasTipCap (tx : Transaction) : Option Int :=
  match tx.inner with
  | .Legacy l => l.GasPrice
  | .DynamicFee d => d.GasTipCap

/-- The accessor `GasPrice()`: the gas price of a legacy transaction, the fee cap of a
dynamic-fee one. -/
def Transaction.GasPrice (tx : Transaction) : Option Int :=
  match tx.inner with
  | .Legacy l => l.GasPrice
  | .DynamicFee d => d.GasFeeCap

/-! ## Collaborators -/

/-- The key store `ks`: unlocking and signing. -/
structure KeyStore where
  Unlock : Account → String → Option Err
  SignTx : Account → Transaction → Option Int → Except Err Transaction

/-- The node behind `eth_client`: one outcome per query. A successful query
returns a non-nil value. -/
structure Client where
  BalanceAt : Address → Except Err Int
  PendingNonceAt : Address → Except Err Nat
  SuggestGasPrice : Except Err Int
  SuggestGasTipCap : Except Err Int
  ChainID : Except Err Int
  SendTransaction : Transaction → Option Err

/-- A call made to a collaborator, with its arguments; a `*big.Int` argument is given by
the big integer it points to at the time of the call. -/
inductive Call where
  | Unlock (a : Account) (passphrase : String)
  | BalanceAt (account : Address)
  | PendingNonceAt (account : Address)
  | SuggestGasPrice
  | SuggestGasTipCap
  | ChainID
  | SignTx (a : Account) (tx : Transaction) (chainID : Option Int)
  | SendTransaction (tx : Transaction)
deriving DecidableEq, Repr

/-- How a call ends: it returns an `error` (`none` is `nil`), or it panics. -/
inductive Outcome where
  | returned (err : Option Err)
  | panicked
deriving DecidableEq, Repr

/-- One run of an entry point: the collaborator calls it made, in order, and how it ended. -/
structure Run where
  trace : List Call
  outcome : Outcome
deriving DecidableEq, Repr

/-- One run of an entry point together with the parameters it handed to the factory
(`none` when the run ended before the factory call). -/
structure Execution where
  trace : List Call
  outcome : Outcome
  built : Option TxData
deriving DecidableEq, Repr

/-- The run of an execution. -/
def Execution.toRun (e : Execution) : Run :=
  ⟨e.trace, e.outcome⟩

/-! ## Machine integers -/

/-- The method `(*big.Int).Int64`: the low 64 bits of the magnitude, read as a
two-complement `int64`, negated (with wrap-around) when the number is negative. -/
def Int64 (x : Int) : Int :=
  let low : Int := ((x.natAbs % 2 ^ 64 : Nat) : Int)
  let v : Int := if low < 2 ^ 63 then low else low - 2 ^ 64
  if x < 0 then (if v = -(2 ^ 63) then v else -v) else v

/-- The conversion `uint64(v)` of an `int64`. -/
def uint64 (v : Int) : Nat :=
  (v % 2 ^ 64).toNat

/-- The length of a byte slice; the nil slice has length 0. -/
def len (b : Option (List Nat)) : Nat :=
  match b with
  | none => 0
  | some l => l.length

/-! ## The two entry points -/

/-- The loop `for _, sto := range options { sto(&opt) }` (lines 110-112). -/
def applyOptions (options : List SendTxnOption) (o : opt) : opt :=
  options.foldl (fun acc sto => sto acc) o

/-- The loop `for i := range fn { fn[i](&data) }` (lines 175-177). -/
def applyFn (fn : List SetTxnData) (s : TxnState) : TxnState :=
  fn.foldl (fun acc f => f acc) s

/-- The test `opt.gasPrice == nil || opt.gasPrice.Cmp(big.NewInt(0)) <= 0` (line 119). -/
def priceUnset (gasPrice : Option Int) : Bool :=
  match gasPrice with
  | none => true
  | some p => decide (p ≤ 0)

/-- The state the dynamic-fee overrides start from: the literal of lines 165-174, whose
`ChainID` is the pointer held by the local `chainId` and whose `Value` is the pointer
`amount`, with these two big integers holding the queried chain identifier and the
amount. The other big integers start at 0: an override that uses one writes it first. -/
def initialTxnState (chainId : Int) (to_ : Account) (amt : Int) : TxnState :=
  { heap := fun p =>
      match p with
      | .chainId => chainId
      | .amount => amt
      | .other _ => 0
    data := { ChainID := some .chainId, Nonce := 0, GasTipCap := none, GasFeeCap := none,
              Gas := 0, To := some to_.Address, Value := some .amount, Data := some [] } }

/-- The body of `EthSendTransaction` (lines 98-146). A nil `amount` makes
`balance.Cmp(amount)` (line 106) dereference a nil pointer, hence the panic. The buffer
of line 129 has length 0, so `rand.Read` (line 130) writes nothing and the payload default
is the empty, non-nil slice. The chain-id query (line 133) comes after the transaction is
built. -/
def EthSendTransaction.exec (eth_client : Client) (ks : KeyStore) (auth : String)
    (from_ to_ : Account) (amount : Option Int) (options : List SendTxnOption) : Execution :=
  let tr := [Call.Unlock from_ auth]
  match ks.Unlock from_ auth with
  | some err =>
    ⟨tr, .returned (some (.Wrap err ("can not unlock account:" ++ from_.Address.Hex))), none⟩
  | none =>
  let tr := tr ++ [Call.BalanceAt from_.Address]
  match eth_client.BalanceAt from_.Address with
  | .error err => ⟨tr, .returned (some (.WithStack err)), none⟩
  | .ok balance =>
  match amount with
  | none => ⟨tr, .panicked, none⟩
  | some amt =>
  if balance ≤ amt then
    ⟨tr, .returned (some (.New ("no enough balance, balance: " ++ toString balance))), none⟩
  else
  let o := applyOptions options {}
  let (tr, nonce) :=
    if o.nonce = 0 then
      (tr ++ [Call.PendingNonceAt from_.Address], eth_client.PendingNonceAt from_.Address)
    else (tr, .ok o.nonce)
  match nonce with
  | .error err => ⟨tr, .returned (some (.WithStack err)), none⟩
  | .ok nonce =>
  let (tr, gasPrice) :=
    if priceUnset o.gasPrice then
      (tr ++ [Call.SuggestGasPrice], eth_client.SuggestGasPrice.map some)
    else (tr, .ok o.gasPrice)
  match gasPrice with
  | .error err => ⟨tr, .returned (some (.WithStack err)), none⟩
  | .ok gasPrice =>
  let gasLimit := if o.gasLimit = 0 then 21000 else o.gasLimit
  let data := if len o.data = 0 then some [] else o.data
  let built := some (TxData.Legacy ⟨nonce, to_.Address, some amt, gasLimit, gasPrice, data⟩)
  let txn := NewTransaction nonce to_.Address (some amt) gasLimit gasPrice data
  let tr := tr ++ [Call.ChainID]
  match eth_client.ChainID with
  | .error err => ⟨tr, .returned (some (.WithStack err)), built⟩
  | .ok chainId =>
  let tr := tr ++ [Call.SignTx from_ txn (some chainId)]
  match ks.SignTx from_ txn (some chainId) with
  | .error err => ⟨tr, .returned (some (.WithStack err)), built⟩
  | .ok signed_txn =>
  let tr := tr ++ [Call.SendTransaction signed_txn]
  match eth_client.SendTransaction signed_txn with
  | some err => ⟨tr, .returned (some (.WithStack err)), built⟩
  | none => ⟨tr, .returned none, built⟩

/-- The function `EthSendTransaction` (lines 98-146): the run of its body. -/
def EthSendTransaction (eth_client : Client) (ks : KeyStore) (auth : String)
    (from_ to_ : Account) (amount : Option Int) (options : List SendTxnOption) : Run :=
  (EthSendTransaction.exec eth_client ks auth from_ to_ amount options).toRun

/-- The body of `EthSendDynamicFeeTx` (lines 150-208). The chain-id query (line 161)
comes before the overrides run; the signer (line 199) receives the pointer `chainId`,
that is the big integer the query returned as the overrides left it, not the field of
`data`. Only the nonce, the gas limit and the fee cap have a defaulting step. The factory
(line 198) reads the big integers the fields point to when it is called. -/
def EthSendDynamicFeeTx.exec (eth_client : Client) (ks : KeyStore) (auth : String)
    (from_ to_ : Account) (amount : Option Int) (fn : List SetTxnData) : Execution :=
  let tr := [Call.Unlock from_ auth]
  match ks.Unlock from_ auth with
  | some err =>
    ⟨tr, .returned (some (.Wrap err ("can not unlock account:" ++ from_.Address.Hex))), none⟩
  | none =>
  let tr := tr ++ [Call.BalanceAt from_.Address]
  match eth_client.BalanceAt from_.Address with
  | .error err => ⟨tr, .returned (some (.WithStack err)), none⟩
  | .ok balance =>
  match amount with
  | none => ⟨tr, .panicked, none⟩
  | some amt =>
  if balance ≤ amt then
    ⟨tr, .returned (some (.New ("no enough balance, balance: " ++ toString balance))), none⟩
  else
  let tr := tr ++ [Call.ChainID]
  match eth_client.ChainID with
  | .error err => ⟨tr, .returned (some (.WithStack err)), none⟩
  | .ok chainId =>
  let s := applyFn fn (initialTxnState chainId to_ amt)
  let (tr, nonce) :=
    if s.data.Nonce = 0 then
      (tr ++ [Call.PendingNonceAt from_.Address], eth_client.PendingNonceAt from_.Address)
    else (tr, .ok s.data.Nonce)
  match nonce with
  | .error err => ⟨tr, .returned (some (.WithStack err)), none⟩
  | .ok nonce =>
  let (tr, gas) :=
    if s.data.Gas = 0 then
      (tr ++ [Call.SuggestGasPrice], eth_client.SuggestGasPrice.map (fun v => uint64 (Int64 v)))
    else (tr, .ok s.data.Gas)
  match gas with
  | .error err => ⟨tr, .returned (some (.WithStack err)), none⟩
  | .ok gas =>
  let (tr, feeCap) :=
    if s.data.GasFeeCap = none then
      (tr ++ [Call.SuggestGasTipCap], eth_client.SuggestGasTipCap.map some)
    else (tr, .ok (s.data.GasFeeCap.map s.heap))
  match feeCap with
  | .error err => ⟨tr, .returned (some (.WithStack err)), none⟩
  | .ok feeCap =>
  let data : DynamicFeeFields :=
    { s.data.deref s.heap with Nonce := nonce, Gas := gas, GasFeeCap := feeCap }
  let built := some (TxData.DynamicFee data)
  let txn := NewTx data
  let chainId := s.heap .chainId
  let tr := tr ++ [Call.SignTx from_ txn (some chainId)]
  match ks.SignTx from_ txn (some chainId) with
  | .error err => ⟨tr, .returned (some (.WithStack err)), built⟩
  | .ok signed_txn =>
  let tr := tr ++ [Call.SendTransaction signed_txn]
  match eth_client.SendTransaction signed_txn with
  | some err => ⟨tr, .returned (some (.WithStack err)), built⟩
  | none => ⟨tr, .returned none, built⟩

/-- The function `EthSendDynamicFeeTx` (lines 150-208): the run of its body. -/
def EthSendDynamicFeeTx (eth_client : Client) (ks : KeyStore) (auth : String)
    (from_ to_ : Account) (amount : Option Int) (fn : List SetTxnData) : Run :=
  (EthSendDynamicFeeTx.exec eth_client ks auth from_ to_ amount fn).toRun

/-! ## Specification vocabulary -/

/-- No override of the sequence sets the field `p`: each one leaves it as it found it. -/
def Keeps {σ α : Type} (p : σ → α) (fs : List (σ → σ)) : Prop :=
  ∀ f ∈ fs, ∀ s, p (f s) = p s

/-- The last override of the sequence that writes the field `p` writes the value `v`:
some override writes `v`, and no override after it sets the field. -/
def LastWrites {σ α : Type} (p : σ → α) (fs : List (σ → σ)) (v : α) : Prop :=
  ∃ pre f post, fs = pre ++ f :: post ∧ (∀ s, p (f s) = v) ∧ Keeps p post

/-- Whether a collaborator call fails, given the outcomes of the node and of the key store. -/
def Call.fails (eth_client : Client) (ks : KeyStore) : Call → Bool
  | .Unlock a passphrase => (ks.Unlock a passphrase).isSome
  | .BalanceAt account => !(eth_client.BalanceAt account).toBool
  | .PendingNonceAt account => !(eth_client.PendingNonceAt account).toBool
  | .SuggestGasPrice => !eth_client.SuggestGasPrice.toBool
  | .SuggestGasTipCap => !eth_client.SuggestGasTipCap.toBool
  | .ChainID => !eth_client.ChainID.toBool
  | .SignTx a tx chainID => !(ks.SignTx a tx chainID).toBool
  | .SendTransaction tx => (eth_client.SendTransaction tx).isSome

/-- Whether a call is a signing call. -/
def Call.isSignTx : Call → Bool
  | .SignTx _ _ _ => true
  | _ => false

/-- Whether a call is a broadcast. -/
def Call.isSendTransaction : Call → Bool
  | .SendTransaction _ => true
  | _ => false

/-- Whether every failing call of a trace is its last call. -/
def stopsAtFailure (eth_client : Client) (ks : KeyStore) : List Call → Bool
  | [] => true
  | c :: rest => (!c.fails eth_client ks || rest.isEmpty) && stopsAtFailure eth_client ks rest

/-- The first failure ends the run: a failing collaborator call is the last call of the
trace and the run returns an error; a failure of any call other than the broadcast
leaves the trace without a broadcast; a balance not above the amount ends the run with an
error right after the balance query; and the trace holds at most one signing call. -/
def ShortCircuits (eth_client : Client) (ks : KeyStore) (auth : String) (from_ : Account)
    (amount : Option Int) (r : Run) : Prop :=
  (∀ pre c post, r.trace = pre ++ c :: post → c.fails eth_client ks = true →
      post = [] ∧ ∃ e, r.outcome = .returned (some e))
  ∧ (∀ c ∈ r.trace, c.fails eth_client ks = true → c.isSendTransaction = false →
      ∀ d ∈ r.trace, d.isSendTransaction = false)
  ∧ (∀ balance amt, ks.Unlock from_ auth = none →
      eth_client.BalanceAt from_.Address = .ok balance → amount = some amt → balance ≤ amt →
      r.trace = [.Unlock from_ auth, .BalanceAt from_.Address]
        ∧ ∃ e, r.outcome = .returned (some e))
  ∧ (r.trace.filter Call.isSignTx).length ≤ 1

/-- Every step before the signing succeeds: the unlock, the balance query with a balance
above the non-nil amount, and the four node queries, which return the pending nonce `n`,
the suggested gas price `p`, the suggested tip cap `t` and the chain identifier `c`.
Nothing is assumed of the signing and of the broadcast. -/
def StepsSucceed (eth_client : Client) (ks : KeyStore) (auth : String) (from_ : Account)
    (amount : Option Int) (amt : Int) (n : Nat) (p t c : Int) : Prop :=
  ks.Unlock from_ auth = none
  ∧ (∃ balance, eth_client.BalanceAt from_.Address = .ok balance ∧ amt < balance)
  ∧ amount = some amt
  ∧ eth_client.PendingNonceAt from_.Address = .ok n
  ∧ eth_client.SuggestGasPrice = .ok p
  ∧ eth_client.SuggestGasTipCap = .ok t
  ∧ eth_client.ChainID = .ok c

/-! ## Sample collaborators and overrides -/

/-- A key store that unlocks every account and signs every transaction. -/
def sampleKeyStore : KeyStore :=
  { Unlock := fun _ _ => none
    SignTx := fun _ tx _ => .ok { tx with signature := some [1] } }

/-- A node on chain 1337: balance 1000, pending nonce 5, suggested gas price 30,
suggested tip cap 2, accepting every broadcast. -/
def sampleClient : Client :=
  { BalanceAt := fun _ => .ok 1000
    PendingNonceAt := fun _ => .ok 5
    SuggestGasPrice := .ok 30
    SuggestGasTipCap := .ok 2
    ChainID := .ok 1337
    SendTransaction := fun _ => none }

/-- A node like `sampleClient` whose sender balance is 100. -/
def poorClient : Client :=
  { sampleClient with BalanceAt := fun _ => .ok 100 }

/-- The sender account of the samples. -/
def alice : Account := { Address := { Hex := "0xA1" }, URL := "" }

/-- The recipient account of the samples. -/
def bob : Account := { Address := { Hex := "0xB2" }, URL := "" }

/-- A key store like `sampleKeyStore` whose signing fails. -/
def brokenKeyStore : KeyStore :=
  { sampleKeyStore with SignTx := fun _ _ _ => .error (.external 7) }

/-- A legacy override that sets the nonce (`o.nonce = n`). -/
def withNonce (n : Nat) : SendTxnOption := fun o => { o with nonce := n }

/-- A legacy override that sets the gas limit (`o.gasLimit = g`). -/
def withGasLimit (g : Nat) : SendTxnOption := fun o => { o with gasLimit := g }

/-- A legacy override that sets the gas price (`o.gasPrice = p`). -/
def withGasPrice (p : Option Int) : SendTxnOption := fun o => { o with gasPrice := p }

/-- A dynamic-fee override that sets the nonce (`d.Nonce = n`). -/
def setNonce (n : Nat) : SetTxnData := fun s => { s with data := { s.data with Nonce := n } }

/-- A dynamic-fee override that sets the gas limit (`d.Gas = g`). -/
def setGas (g : Nat) : SetTxnData := fun s => { s with data := { s.data with Gas := g } }

/-- A dynamic-fee override that assigns a new big integer to the chain-identifier field
(`d.ChainID = big.NewInt(c)`). -/
def setChainID (c : Int) : SetTxnData := fun s =>
  { heap := s.heap.set (.other 0) c, data := { s.data with ChainID := some (.other 0) } }

/-- A dynamic-fee override that changes, in place, the big integer the chain-identifier
field points to (`d.ChainID.SetInt64(c)`). -/
def mutateChainID (c : Int) : SetTxnData := fun s =>
  match s.data.ChainID with
  | some p => { s with heap := s.heap.set p c }
  | none => s

/-! ## Theorems -/

/-- A field that no override of the sequence sets keeps its initial value. -/
theorem foldl_keeps {σ α : Type} (p : σ → α) (fs : List (σ → σ)) (h : Keeps p fs) (s : σ) :
    p (fs.foldl (fun acc f => f acc) s) = p s := by
  induction fs generalizing s with
  | nil => rfl
  | cons f rest ih =>
    have hrest : Keeps p rest := fun g hg t => h g (List.mem_cons_of_mem f hg) t
    rw [List.foldl_cons, ih hrest, h f (List.mem_cons_self f rest)]

/-- A field holds, after all overrides, the value its last writer wrote. -/
theorem foldl_lastWrites {σ α : Type} (p : σ → α) (fs : List (σ → σ)) (v : α)
    (h : LastWrites p fs v) (s : σ) : p (fs.foldl (fun acc f => f acc) s) = v := by
  obtain ⟨pre, f, post, rfl, hf, hpost⟩ := h
  rw [List.foldl_append, List.foldl_cons, foldl_keeps p post hpost, hf]

/-- In a trace that stops at its first failure, nothing follows a failing call. -/
theorem stopsAtFailure_split (eth_client : Client) (ks : KeyStore) (t : List Call)
    (h : stopsAtFailure eth_client ks t = true) (pre : List Call) (c : Call) (post : List Call)
    (ht : t = pre ++ c :: post) (hc : c.fails eth_client ks = true) : post = [] := by
  induction pre generalizing t with
  | nil =>
    subst ht
    simp [stopsAtFailure, hc] at h
    exact h.1
  | cons a rest ih =>
    subst ht
    simp only [List.cons_append, stopsAtFailure, Bool.and_eq_true] at h
    exact ih _ h.2 rfl

/-- The conversion `uint64(v.Int64())` is the identity on `0 ≤ v < 2^63`. -/
theorem uint64_Int64_of_nonneg (v : Int) (h0 : 0 ≤ v) (h1 : v < 2 ^ 63) :
    ((uint64 (Int64 v) : Nat) : Int) = v := by
  have hlow : ((v.natAbs % 2 ^ 64 : Nat) : Int) = v := by omega
  have hv : Int64 v = v := by
    unfold Int64
    simp only [hlow]
    rw [if_pos h1, if_neg (by omega)]
  rw [hv]
  unfold uint64
  omega

set_option maxHeartbeats 4000000 in
/-- The shape of every execution of the legacy body: the trace stops at the first
failure, a failure yields an error and excludes the broadcast, signing happens at most
once, the signer receives what the factory made of the parameters handed to it, every
call of the trace is accounted for, and the parameters handed to the factory are the
resolved ones. -/
theorem legacy_run_facts (eth_client : Client) (ks : KeyStore) (auth : String)
    (from_ to_ : Account) (amount : Option Int) (options : List SendTxnOption)
    (e : Execution) (o : opt)
    (ho : applyOptions options {} = o)
    (he : EthSendTransaction.exec eth_client ks auth from_ to_ amount options = e) :
    stopsAtFailure eth_client ks e.trace = true
    ∧ (∀ c ∈ e.trace, c.fails eth_client ks = true → ∃ err, e.outcome = .returned (some err))
    ∧ (∀ c ∈ e.trace, c.fails eth_client ks = true → c.isSendTransaction = false →
        ∀ d ∈ e.trace, d.isSendTransaction = false)
    ∧ (e.trace.filter Call.isSignTx).length ≤ 1
    ∧ (∀ a tx cid, Call.SignTx a tx cid ∈ e.trace →
        a = from_ ∧ ∃ chainId l,
          eth_client.ChainID = .ok chainId ∧ cid = some chainId
          ∧ e.built = some (.Legacy l)
          ∧ tx = NewTransaction l.Nonce l.To l.Value l.Gas l.GasPrice l.Data)
    ∧ (∀ c ∈ e.trace, c = .Unlock from_ auth ∨ c = .BalanceAt from_.Address
        ∨ (c = .PendingNonceAt from_.Address ∧ o.nonce = 0)
        ∨ (c = .SuggestGasPrice ∧ priceUnset o.gasPrice = true)
        ∨ c = .ChainID ∨ c.isSignTx = true ∨ c.isSendTransaction = true)
    ∧ (∀ input, e.built = some input →
        ∃ amt nonce gasPrice, amount = some amt
          ∧ input = .Legacy ⟨nonce, to_.Address, some amt,
              if o.gasLimit = 0 then 21000 else o.gasLimit, gasPrice,
              if len o.data = 0 then some [] else o.data⟩
          ∧ (o.nonce = 0 → Call.PendingNonceAt from_.Address ∈ e.trace
              ∧ eth_client.PendingNonceAt from_.Address = .ok nonce)
          ∧ (o.nonce ≠ 0 → nonce = o.nonce)
          ∧ (priceUnset o.gasPrice = false → gasPrice = o.gasPrice)
          ∧ (priceUnset o.gasPrice = true → Call.SuggestGasPrice ∈ e.trace
              ∧ ∃ p, eth_client.SuggestGasPrice = .ok p ∧ gasPrice = some p)) := by
  revert he
  unfold EthSendTransaction.exec
  rw [ho]
  simp only []
  generalize (if o.gasLimit = 0 then 21000 else o.gasLimit) = gl
  generalize (if len o.data = 0 then some [] else o.data) = dt
  rcases hU : ks.Unlock from_ auth with _ | e
  swap
  · rintro rfl
    simp [stopsAtFailure, Call.fails, Call.isSignTx, Call.isSendTransaction, hU]
  rcases hB : eth_client.BalanceAt from_.Address with e | balance
  · rintro rfl
    simp [stopsAtFailure, Call.fails, Call.isSignTx, Call.isSendTransaction, hU, hB, Except.toBool]
  rcases amount with _ | amt
  · rintro rfl
    simp [stopsAtFailure, Call.fails, Call.isSignTx, Call.isSendTransaction, hU, hB, Except.toBool]
  by_cases hle : balance ≤ amt
  · rintro rfl
    simp [stopsAtFailure, Call.fails, Call.isSignTx, Call.isSendTransaction, hU, hB, Except.toBool, hle]
  simp only [hle, if_false]
  by_cases hn : o.nonce = 0 <;> simp only [hn, ↓reduceIte]
  all_goals first
    | (have _h : o.nonce = 0 := hn
       rcases hN : eth_client.PendingNonceAt from_.Address with e | nonce <;> simp only [])
    | skip
  all_goals first
    | (have _h : eth_client.PendingNonceAt from_.Address = Except.error e := hN
       rintro rfl
       simp_all [stopsAtFailure, Call.fails, Call.isSignTx, Call.isSendTransaction, Except.toBool])
    | skip
  all_goals (by_cases hu : priceUnset o.gasPrice = true <;>
    simp only [hu, ↓reduceIte, Bool.false_eq_true])
  all_goals first
    | (have _h : priceUnset o.gasPrice = true := hu
       rcases hP : eth_client.SuggestGasPrice with e | p <;> simp only [Except.map])
    | skip
  all_goals first
    | (have _h : eth_client.SuggestGasPrice = Except.error e := hP
       rintro rfl
       simp_all [stopsAtFailure, Call.fails, Call.isSignTx, Call.isSendTransaction, Except.toBool])
    | skip
  all_goals (rcases hC : eth_client.ChainID with e | chainId <;> simp only [])
  all_goals first
    | (have _h : eth_client.ChainID = Except.error e := hC
       rintro rfl
       simp_all [stopsAtFailure, Call.fails, Call.isSignTx, Call.isSendTransaction, Except.toBool])
    | skip
  all_goals (repeat' split)
  all_goals
    (rintro rfl
     refine ⟨?_, ?_, ?_, ?_, ?_, ?_, ?_⟩
     · simp [stopsAtFailure, Call.fails, Except.toBool, *]
     · simp [Call.fails, Except.toBool, *]
     · simp [Call.fails, Call.isSendTransaction, Except.toBool, *]
     · simp [Call.isSignTx]
     · intro a tx cid hmem
       simp only [List.mem_append, List.mem_cons, List.mem_singleton, List.mem_nil_iff,
         reduceCtorEq, Call.SignTx.injEq, false_or, or_false] at hmem
       obtain ⟨rfl, rfl, rfl⟩ := hmem
       exact ⟨rfl, chainId, _, rfl, rfl, rfl, rfl⟩
     · simp [Call.isSignTx, Call.isSendTransaction, *]
     · intro input hinput
       simp only [Option.some.injEq] at hinput
       subst hinput
       refine ⟨amt, _, _, rfl, rfl, ?_, ?_, ?_, ?_⟩ <;> simp [*])

set_option maxHeartbeats 4000000 in
/-- The shape of every execution of the dynamic-fee body: the trace stops at the first
failure, a failure yields an error and excludes the broadcast, signing happens at most
once, the signer receives what the factory made of the parameters handed to it together
with the big integer the chain-id query returned as the overrides left it, and the
parameters handed to the factory are the resolved ones, in which case the signing call
is made. -/
theorem dynamic_run_facts (eth_client : Client) (ks : KeyStore) (auth : String)
    (from_ to_ : Account) (amount : Option Int) (fn : List SetTxnData) (e : Execution)
    (he : EthSendDynamicFeeTx.exec eth_client ks auth from_ to_ amount fn = e) :
    stopsAtFailure eth_client ks e.trace = true
    ∧ (∀ c ∈ e.trace, c.fails eth_client ks = true → ∃ err, e.outcome = .returned (some err))
    ∧ (∀ c ∈ e.trace, c.fails eth_client ks = true → c.isSendTransaction = false →
        ∀ d ∈ e.trace, d.isSendTransaction = false)
    ∧ (e.trace.filter Call.isSignTx).length ≤ 1
    ∧ (∀ a tx cid, Call.SignTx a tx cid ∈ e.trace →
        a = from_ ∧ ∃ chainId amt d,
          eth_client.ChainID = .ok chainId ∧ amount = some amt
          ∧ cid = some ((applyFn fn (initialTxnState chainId to_ amt)).heap .chainId)
          ∧ e.built = some (.DynamicFee d)
          ∧ tx = NewTx d)
    ∧ (∀ input, e.built = some input →
        ∃ chainId amt s nonce gas feeCap,
          eth_client.ChainID = .ok chainId ∧ amount = some amt
          ∧ applyFn fn (initialTxnState chainId to_ amt) = s
          ∧ input = .DynamicFee
              { s.data.deref s.heap with Nonce := nonce, Gas := gas, GasFeeCap := feeCap }
          ∧ Call.SignTx from_
              (NewTx { s.data.deref s.heap with Nonce := nonce, Gas := gas,
                                                GasFeeCap := feeCap })
              (some (s.heap .chainId)) ∈ e.trace
          ∧ (s.data.Nonce = 0 → Call.PendingNonceAt from_.Address ∈ e.trace
              ∧ eth_client.PendingNonceAt from_.Address = .ok nonce)
          ∧ (s.data.Nonce ≠ 0 → nonce = s.data.Nonce)
          ∧ (s.data.Gas = 0 → Call.SuggestGasPrice ∈ e.trace
              ∧ ∃ v, eth_client.SuggestGasPrice = .ok v ∧ gas = uint64 (Int64 v))
          ∧ (s.data.Gas ≠ 0 → gas = s.data.Gas)
          ∧ (s.data.GasFeeCap = none → Call.SuggestGasTipCap ∈ e.trace
              ∧ ∃ t, eth_client.SuggestGasTipCap = .ok t ∧ feeCap = some t)
          ∧ (s.data.GasFeeCap ≠ none → feeCap = s.data.GasFeeCap.map s.heap)) := by
  revert he
  unfold EthSendDynamicFeeTx.exec
  simp only []
  rcases hU : ks.Unlock from_ auth with _ | e
  swap
  · rintro rfl
    simp [stopsAtFailure, Call.fails, Call.isSignTx, Call.isSendTransaction, hU]
  rcases hB : eth_client.BalanceAt from_.Address with e | balance
  · rintro rfl
    simp [stopsAtFailure, Call.fails, Call.isSignTx, Call.isSendTransaction, hU, hB, Except.toBool]
  rcases amount with _ | amt
  · rintro rfl
    simp [stopsAtFailure, Call.fails, Call.isSignTx, Call.isSendTransaction, hU, hB, Except.toBool]
  by_cases hle : balance ≤ amt
  · rintro rfl
    simp [stopsAtFailure, Call.fails, Call.isSignTx, Call.isSendTransaction, hU, hB, Except.toBool, hle]
  simp only [hle, if_false]
  rcases hC : eth_client.ChainID with e | chainId
  · rintro rfl
    simp [stopsAtFailure, Call.fails, Call.isSignTx, Call.isSendTransaction, hU, hB, hC,
      Except.toBool]
  simp only []
  generalize hs : applyFn fn (initialTxnState chainId to_ amt) = s
  by_cases hn : s.data.Nonce = 0 <;> simp only [hn, ↓reduceIte]
  all_goals first
    | (have _h : s.data.Nonce = 0 := hn
       rcases hN : eth_client.PendingNonceAt from_.Address with e | nonce <;> simp only [])
    | skip
  all_goals first
    | (have _h : eth_client.PendingNonceAt from_.Address = Except.error e := hN
       rintro rfl
       simp_all [stopsAtFailure, Call.fails, Call.isSignTx, Call.isSendTransaction, Except.toBool])
    | skip
  all_goals (by_cases hg : s.data.Gas = 0 <;> simp only [hg, ↓reduceIte])
  all_goals first
    | (have _h : s.data.Gas = 0 := hg
       rcases hP : eth_client.SuggestGasPrice with e | p <;> simp only [Except.map])
    | skip
  all_goals first
    | (have _h : eth_client.SuggestGasPrice = Except.error e := hP
       rintro rfl
       simp_all [stopsAtFailure, Call.fails, Call.isSignTx, Call.isSendTransaction, Except.toBool])
    | skip
  all_goals (by_cases hf : s.data.GasFeeCap = none <;> simp only [hf, ↓reduceIte])
  all_goals first
    | (have _h : s.data.GasFeeCap = none := hf
       rcases hT : eth_client.SuggestGasTipCap with e | t <;> simp only [Except.map])
    | skip
  all_goals first
    | (have _h : eth_client.SuggestGasTipCap = Except.error e := hT
       rintro rfl
       simp_all [stopsAtFailure, Call.fails, Call.isSignTx, Call.isSendTransaction, Except.toBool])
    | skip
  all_goals (repeat' split)
  all_goals
    (rintro rfl
     refine ⟨?_, ?_, ?_, ?_, ?_, ?_⟩
     · simp [stopsAtFailure, Call.fails, Except.toBool, *]
     · simp [Call.fails, Except.toBool, *]
     · simp [Call.fails, Call.isSendTransaction, Except.toBool, *]
     · simp [Call.isSignTx]
     · intro a tx cid hmem
       simp only [List.mem_append, List.mem_cons, List.mem_singleton, List.mem_nil_iff,
         reduceCtorEq, Call.SignTx.injEq, false_or, or_false] at hmem
       obtain ⟨rfl, rfl, rfl⟩ := hmem
       exact ⟨rfl, chainId, amt, _, rfl, rfl, by rw [hs], rfl, rfl⟩
     · intro input hinput
       simp only [Option.some.injEq] at hinput
       subst hinput
       refine ⟨chainId, amt, s, _, _, _, rfl, rfl, hs, rfl, ?_, ?_, ?_, ?_, ?_, ?_, ?_⟩ <;>
         simp [*])

/-- When every step before the signing succeeds, the legacy body makes the signing call
for the resolved parameters, with the chain identifier the node reported. -/
theorem legacy_reaches_signer (eth_client : Client) (ks : KeyStore) (auth : String)
    (from_ to_ : Account) (amount : Option Int) (options : List SendTxnOption)
    (amt : Int) (n : Nat) (p t c : Int)
    (h : StepsSucceed eth_client ks auth from_ amount amt n p t c) :
    Call.SignTx from_
        (NewTransaction
          (if (applyOptions options {}).nonce = 0 then n else (applyOptions options {}).nonce)
          to_.Address (some amt)
          (if (applyOptions options {}).gasLimit = 0 then 21000
            else (applyOptions options {}).gasLimit)
          (if priceUnset (applyOptions options {}).gasPrice = true then some p
            else (applyOptions options {}).gasPrice)
          (if len (applyOptions options {}).data = 0 then some []
            else (applyOptions options {}).data))
        (some c)
      ∈ (EthSendTransaction.exec eth_client ks auth from_ to_ amount options).trace := by
  obtain ⟨hu, ⟨balance, hb, hlt⟩, rfl, hn, hp, -, hc⟩ := h
  have hnle : ¬ balance ≤ amt := not_le.mpr hlt
  unfold EthSendTransaction.exec
  simp only [hu, hb, hnle, hn, hp, hc, Except.map, if_false]
  generalize (if (applyOptions options {}).gasLimit = 0 then 21000
    else (applyOptions options {}).gasLimit) = gl
  generalize (if len (applyOptions options {}).data = 0 then some []
    else (applyOptions options {}).data) = dt
  by_cases h0 : (applyOptions options {}).nonce = 0 <;>
    by_cases hpu : priceUnset (applyOptions options {}).gasPrice = true <;>
    simp only [h0, hpu, ↓reduceIte, Bool.false_eq_true] <;>
    (repeat' split) <;>
    simp

/-- When every step before the signing succeeds, the dynamic-fee body hands parameters
to the factory. -/
theorem dynamic_reaches_factory (eth_client : Client) (ks : KeyStore) (auth : String)
    (from_ to_ : Account) (amount : Option Int) (fn : List SetTxnData)
    (amt : Int) (n : Nat) (p t c : Int)
    (h : StepsSucceed eth_client ks auth from_ amount amt n p t c) :
    ∃ input,
      (EthSendDynamicFeeTx.exec eth_client ks auth from_ to_ amount fn).built = some input := by
  obtain ⟨hu, ⟨balance, hb, hlt⟩, rfl, hn, hp, ht, hc⟩ := h
  have hnle : ¬ balance ≤ amt := not_le.mpr hlt
  unfold EthSendDynamicFeeTx.exec
  simp only [hu, hb, hnle, hn, hp, ht, hc, Except.map, if_false]
  generalize applyFn fn (initialTxnState c to_ amt) = s
  by_cases h0 : s.data.Nonce = 0 <;> by_cases hg : s.data.Gas = 0 <;>
    by_cases hf : s.data.GasFeeCap = none <;>
    simp only [h0, hg, hf, ↓reduceIte] <;>
    (repeat' split) <;>
    simp

/-- What a signing call of the legacy entry point receives: the factory's transaction for
the resolved parameters, and the chain identifier the node reported. -/
theorem legacy_signed (eth_client : Client) (ks : KeyStore) (auth : String)
    (from_ to_ : Account) (amount : Option Int) (options : List SendTxnOption)
    (a : Account) (tx : Transaction) (cid : Option Int)
    (hmem : Call.SignTx a tx cid
      ∈ (EthSendTransaction eth_client ks auth from_ to_ amount options).trace) :
    a = from_ ∧ ∃ chainId amt nonce gasPrice,
      eth_client.ChainID = .ok chainId ∧ cid = some chainId ∧ amount = some amt
      ∧ (EthSendTransaction.exec eth_client ks auth from_ to_ amount options).built
          = some (.Legacy ⟨nonce, to_.Address, some amt,
              if (applyOptions options {}).gasLimit = 0 then 21000
                else (applyOptions options {}).gasLimit, gasPrice,
              if len (applyOptions options {}).data = 0 then some []
                else (applyOptions options {}).data⟩)
      ∧ tx = NewTransaction nonce to_.Address (some amt)
          (if (applyOptions options {}).gasLimit = 0 then 21000
            else (applyOptions options {}).gasLimit) gasPrice
          (if len (applyOptions options {}).data = 0 then some []
            else (applyOptions options {}).data)
      ∧ ((applyOptions options {}).nonce = 0 →
          Call.PendingNonceAt from_.Address
              ∈ (EthSendTransaction eth_client ks auth from_ to_ amount options).trace
            ∧ eth_client.PendingNonceAt from_.Address = .ok nonce)
      ∧ ((applyOptions options {}).nonce ≠ 0 → nonce = (applyOptions options {}).nonce)
      ∧ (priceUnset (applyOptions options {}).gasPrice = false →
          gasPrice = (applyOptions options {}).gasPrice)
      ∧ (priceUnset (applyOptions options {}).gasPrice = true →
          Call.SuggestGasPrice
              ∈ (EthSendTransaction eth_client ks auth from_ to_ amount options).trace
            ∧ ∃ p, eth_client.SuggestGasPrice = .ok p ∧ gasPrice = some p) := by
  obtain ⟨_, _, _, _, h5, _, h7⟩ :=
    legacy_run_facts eth_client ks auth from_ to_ amount options _ _ rfl rfl
  obtain ⟨ha, chainId, l, hc, hcid, hb, htx⟩ := h5 a tx cid hmem
  obtain ⟨amt, nonce, gasPrice, hamt, hl, c1, c2, c3, c4⟩ := h7 _ hb
  simp only [TxData.Legacy.injEq] at hl
  subst hl
  exact ⟨ha, chainId, amt, nonce, gasPrice, hc, hcid, hamt, hb, htx, c1, c2, c3, c4⟩

/-- What the dynamic-fee entry point hands to the factory and then to the signer. -/
theorem dynamic_built (eth_client : Client) (ks : KeyStore) (auth : String)
    (from_ to_ : Account) (amount : Option Int) (fn : List SetTxnData) (input : TxData)
    (hb : (EthSendDynamicFeeTx.exec eth_client ks auth from_ to_ amount fn).built
      = some input) :
    ∃ chainId amt s nonce gas feeCap,
      eth_client.ChainID = .ok chainId ∧ amount = some amt
      ∧ applyFn fn (initialTxnState chainId to_ amt) = s
      ∧ input = .DynamicFee
          { s.data.deref s.heap with Nonce := nonce, Gas := gas, GasFeeCap := feeCap }
      ∧ Call.SignTx from_
          (NewTx { s.data.deref s.heap with Nonce := nonce, Gas := gas,
                                            GasFeeCap := feeCap })
          (some (s.heap .chainId))
          ∈ (EthSendDynamicFeeTx eth_client ks auth from_ to_ amount fn).trace
      ∧ (s.data.Nonce = 0 →
          Call.PendingNonceAt from_.Address
              ∈ (EthSendDynamicFeeTx eth_client ks auth from_ to_ amount fn).trace
            ∧ eth_client.PendingNonceAt from_.Address = .ok nonce)
      ∧ (s.data.Nonce ≠ 0 → nonce = s.data.Nonce)
      ∧ (s.data.Gas = 0 →
          Call.SuggestGasPrice
              ∈ (EthSendDynamicFeeTx eth_client ks auth from_ to_ amount fn).trace
            ∧ ∃ v, eth_client.SuggestGasPrice = .ok v ∧ gas = uint64 (Int64 v))
      ∧ (s.data.Gas ≠ 0 → gas = s.data.Gas)
      ∧ (s.data.GasFeeCap = none →
          Call.SuggestGasTipCap
              ∈ (EthSendDynamicFeeTx eth_client ks auth from_ to_ amount fn).trace
            ∧ ∃ t, eth_client.SuggestGasTipCap = .ok t ∧ feeCap = some t)
      ∧ (s.data.GasFeeCap ≠ none → feeCap = s.data.GasFeeCap.map s.heap) :=
  (dynamic_run_facts eth_client ks auth from_ to_ amount fn _ rfl).2.2.2.2.2 input hb

/-- What a signing call of the dynamic-fee entry point receives: the factory's
transaction for the resolved parameters, and the big integer the chain-id query returned
as the overrides left it. -/
theorem dynamic_signed (eth_client : Client) (ks : KeyStore) (auth : String)
    (from_ to_ : Account) (amount : Option Int) (fn : List SetTxnData)
    (a : Account) (tx : Transaction) (cid : Option Int)
    (hmem : Call.SignTx a tx cid
      ∈ (EthSendDynamicFeeTx eth_client ks auth from_ to_ amount fn).trace) :
    a = from_ ∧ ∃ chainId amt s nonce gas feeCap,
      eth_client.ChainID = .ok chainId ∧ amount = some amt
      ∧ applyFn fn (initialTxnState chainId to_ amt) = s
      ∧ cid = some (s.heap .chainId)
      ∧ (EthSendDynamicFeeTx.exec eth_client ks auth from_ to_ amount fn).built
          = some (.DynamicFee
              { s.data.deref s.heap with Nonce := nonce, Gas := gas, GasFeeCap := feeCap })
      ∧ tx = NewTx { s.data.deref s.heap with Nonce := nonce, Gas := gas,
                                              GasFeeCap := feeCap }
      ∧ (s.data.Nonce = 0 →
          Call.PendingNonceAt from_.Address
              ∈ (EthSendDynamicFeeTx eth_client ks auth from_ to_ amount fn).trace
            ∧ eth_client.PendingNonceAt from_.Address = .ok nonce)
      ∧ (s.data.Nonce ≠ 0 → nonce = s.data.Nonce)
      ∧ (s.data.Gas = 0 →
          Call.SuggestGasPrice
              ∈ (EthSendDynamicFeeTx eth_client ks auth from_ to_ amount fn).trace
            ∧ ∃ v, eth_client.SuggestGasPrice = .ok v ∧ gas = uint64 (Int64 v))
      ∧ (s.data.Gas ≠ 0 → gas = s.data.Gas)
      ∧ (s.data.GasFeeCap = none →
          Call.SuggestGasTipCap
              ∈ (EthSendDynamicFeeTx eth_client ks auth from_ to_ amount fn).trace
            ∧ ∃ t, eth_client.SuggestGasTipCap = .ok t ∧ feeCap = some t)
      ∧ (s.data.GasFeeCap ≠ none → feeCap = s.data.GasFeeCap.map s.heap) := by
  obtain ⟨_, _, _, _, h5, _⟩ :=
    dynamic_run_facts eth_client ks auth from_ to_ amount fn _ rfl
  obtain ⟨ha, chainId, amt, d, hc, hamt, hcid, hb, htx⟩ := h5 a tx cid hmem
  obtain ⟨chainId2, amt2, s, nonce, gas, feeCap, hc2, hamt2, hs, hd, -, c1, c2, c3, c4, c5,
    c6⟩ := dynamic_built eth_client ks auth from_ to_ amount fn _ hb
  simp only [TxData.DynamicFee.injEq] at hd
  have e1 : chainId2 = chainId := by
    rw [hc] at hc2
    exact (Except.ok.inj hc2).symm
  have e2 : amt2 = amt := by
    rw [hamt] at hamt2
    exact (Option.some.inj hamt2).symm
  subst e1 e2 hd
  rw [hs] at hcid
  exact ⟨ha, chainId2, amt2, s, nonce, gas, feeCap, hc, hamt, hs, hcid, hb, htx, c1, c2, c3,
    c4, c5, c6⟩

/-- When every step before the signing succeeds, the dynamic-fee entry point makes a
signing call. -/
theorem dynamic_reaches_signer (eth_client : Client) (ks : KeyStore) (auth : String)
    (from_ to_ : Account) (amount : Option Int) (fn : List SetTxnData)
    (amt : Int) (n : Nat) (p t c : Int)
    (h : StepsSucceed eth_client ks auth from_ amount amt n p t c) :
    ∃ tx cid, Call.SignTx from_ tx cid
      ∈ (EthSendDynamicFeeTx eth_client ks auth from_ to_ amount fn).trace := by
  obtain ⟨input, hb⟩ := dynamic_reaches_factory eth_client ks auth from_ to_ amount fn
    amt n p t c h
  obtain ⟨_, _, _, _, _, _, _, _, _, _, hsig, _⟩ :=
    dynamic_built eth_client ks auth from_ to_ amount fn input hb
  exact ⟨_, _, hsig⟩

/-- C1: on both entry points, when the unlock succeeded and the balance query returned a
balance not greater than the (non-nil) amount, the call returns the insufficient-funds
error and its trace is exactly the unlock followed by the balance query. -/
theorem insufficient_funds_stops_after_balance_query (eth_client : Client) (ks : KeyStore)
    (auth : String) (from_ to_ : Account) (amt balance : Int)
    (options : List SendTxnOption) (fn : List SetTxnData)
    (hunlock : ks.Unlock from_ auth = none)
    (hbalance : eth_client.BalanceAt from_.Address = .ok balance)
    (hle : amt ≥ balance) :
    EthSendTransaction eth_client ks auth from_ to_ (some amt) options
        = ⟨[.Unlock from_ auth, .BalanceAt from_.Address],
            .returned (some (.New ("no enough balance, balance: " ++ toString balance)))⟩
      ∧ EthSendDynamicFeeTx eth_client ks auth from_ to_ (some amt) fn
        = ⟨[.Unlock from_ auth, .BalanceAt from_.Address],
            .returned (some (.New ("no enough balance, balance: " ++ toString balance)))⟩ := by
  have hle' : balance ≤ amt := hle
  constructor
  · simp [EthSendTransaction, EthSendTransaction.exec, Execution.toRun, hunlock, hbalance,
      hle']
  · simp [EthSendDynamicFeeTx, EthSendDynamicFeeTx.exec, Execution.toRun, hunlock, hbalance,
      hle']

/-- C1 at balance 100 and amount 100. -/
theorem insufficient_funds_stops_after_balance_query_witness :
    sampleKeyStore.Unlock alice "pw" = none
      ∧ poorClient.BalanceAt alice.Address = .ok 100
      ∧ (100 : Int) ≥ 100
      ∧ EthSendTransaction poorClient sampleKeyStore "pw" alice bob (some 100) []
        = ⟨[.Unlock alice "pw", .BalanceAt alice.Address],
            .returned (some (.New ("no enough balance, balance: " ++ toString (100 : Int))))⟩
      ∧ EthSendDynamicFeeTx poorClient sampleKeyStore "pw" alice bob (some 100) []
        = ⟨[.Unlock alice "pw", .BalanceAt alice.Address],
            .returned (some (.New ("no enough balance, balance: " ++ toString (100 : Int))))⟩ :=
  ⟨rfl, rfl, by decide,
    insufficient_funds_stops_after_balance_query poorClient sampleKeyStore "pw" alice bob 100 100
      [] [] rfl rfl (by decide)⟩

/-- C2: on both entry points, for every override sequence and all collaborator
outcomes, a failing step ends the run with an error and no later call, a failure before
the broadcast leaves the broadcast uninvoked, and signing is invoked at most once. -/
theorem first_failure_short_circuits (eth_client : Client) (ks : KeyStore) (auth : String)
    (from_ to_ : Account) (amount : Option Int)
    (options : List SendTxnOption) (fn : List SetTxnData) :
    ShortCircuits eth_client ks auth from_ amount
        (EthSendTransaction eth_client ks auth from_ to_ amount options)
      ∧ ShortCircuits eth_client ks auth from_ amount
        (EthSendDynamicFeeTx eth_client ks auth from_ to_ amount fn) := by
  constructor
  · obtain ⟨h1, h2, h3, h4, _⟩ :=
      legacy_run_facts eth_client ks auth from_ to_ amount options _ _ rfl rfl
    refine ⟨fun pre c post ht hc => ⟨?_, ?_⟩, h3, ?_, h4⟩
    · exact stopsAtFailure_split _ _ _ h1 pre c post ht hc
    · exact h2 c (by
        have hmem : c ∈ (EthSendTransaction eth_client ks auth from_ to_ amount options).trace := by
          rw [ht]; simp
        exact hmem) hc
    · intro balance amt hu hb ha hle
      subst ha
      simp [EthSendTransaction, EthSendTransaction.exec, Execution.toRun, hu, hb, hle]
  · obtain ⟨h1, h2, h3, h4, _⟩ :=
      dynamic_run_facts eth_client ks auth from_ to_ amount fn _ rfl
    refine ⟨fun pre c post ht hc => ⟨?_, ?_⟩, h3, ?_, h4⟩
    · exact stopsAtFailure_split _ _ _ h1 pre c post ht hc
    · exact h2 c (by
        have hmem : c ∈ (EthSendDynamicFeeTx eth_client ks auth from_ to_ amount fn).trace := by
          rw [ht]; simp
        exact hmem) hc
    · intro balance amt hu hb ha hle
      subst ha
      simp [EthSendDynamicFeeTx, EthSendDynamicFeeTx.exec, Execution.toRun, hu, hb, hle]

/-- C2 at a key store whose signing fails: the signing call is the last call of either
trace, the run returns an error, and no broadcast is in the trace. -/
theorem first_failure_short_circuits_witness :
    (∀ c ∈ (EthSendTransaction sampleClient brokenKeyStore "pw" alice bob (some 500) []).trace,
        c.isSendTransaction = false)
      ∧ (∀ c ∈ (EthSendDynamicFeeTx sampleClient brokenKeyStore "pw" alice bob
          (some 500) []).trace, c.isSendTransaction = false) :=
  ⟨fun c hc =>
      (first_failure_short_circuits sampleClient brokenKeyStore "pw" alice bob (some 500)
        [] []).1.2.1
        (.SignTx alice (NewTransaction 5 bob.Address (some 500) 21000 (some 30) (some []))
          (some 1337)) (by decide) (by decide) (by decide) c hc,
    fun c hc =>
      (first_failure_short_circuits sampleClient brokenKeyStore "pw" alice bob (some 500)
        [] []).2.2.1
        (.SignTx alice (NewTx ⟨some 1337, 5, none, some 2, 30, some bob.Address, some 500,
          some []⟩) (some 1337)) (by decide) (by decide) (by decide) c hc⟩

/-- C3: with no overrides, when the unlock, every node query, the signing and the
broadcast succeed and the balance is strictly above the amount, either entry point
returns no error and its trace ends with exactly one signing call followed by exactly one
broadcast, the broadcast receiving the transaction the signer returned. -/
theorem no_overrides_sign_then_broadcast (eth_client : Client) (ks : KeyStore) (auth : String)
    (from_ to_ : Account) (amt balance : Int) (nonce : Nat) (gasPrice tipCap chainId : Int)
    (signedLegacy signedDynamic : Transaction)
    (hunlock : ks.Unlock from_ auth = none)
    (hbalance : eth_client.BalanceAt from_.Address = .ok balance)
    (hgt : balance > amt)
    (hnonce : eth_client.PendingNonceAt from_.Address = .ok nonce)
    (hprice : eth_client.SuggestGasPrice = .ok gasPrice)
    (htip : eth_client.SuggestGasTipCap = .ok tipCap)
    (hchain : eth_client.ChainID = .ok chainId)
    (hsignLegacy : ks.SignTx from_
        (NewTransaction nonce to_.Address (some amt) 21000 (some gasPrice) (some []))
        (some chainId) = .ok signedLegacy)
    (hsendLegacy : eth_client.SendTransaction signedLegacy = none)
    (hsignDynamic : ks.SignTx from_
        (NewTx ⟨some chainId, nonce, none, some tipCap, uint64 (Int64 gasPrice),
          some to_.Address, some amt, some []⟩)
        (some chainId) = .ok signedDynamic)
    (hsendDynamic : eth_client.SendTransaction signedDynamic = none) :
    EthSendTransaction eth_client ks auth from_ to_ (some amt) []
        = ⟨[.Unlock from_ auth, .BalanceAt from_.Address, .PendingNonceAt from_.Address,
            .SuggestGasPrice, .ChainID,
            .SignTx from_
              (NewTransaction nonce to_.Address (some amt) 21000 (some gasPrice) (some []))
              (some chainId),
            .SendTransaction signedLegacy], .returned none⟩
      ∧ EthSendDynamicFeeTx eth_client ks auth from_ to_ (some amt) []
        = ⟨[.Unlock from_ auth, .BalanceAt from_.Address, .ChainID,
            .PendingNonceAt from_.Address, .SuggestGasPrice, .SuggestGasTipCap,
            .SignTx from_
              (NewTx ⟨some chainId, nonce, none, some tipCap, uint64 (Int64 gasPrice),
                some to_.Address, some amt, some []⟩)
              (some chainId),
            .SendTransaction signedDynamic], .returned none⟩ := by
  have hnle : ¬ balance ≤ amt := not_le.mpr hgt
  constructor
  · simp [EthSendTransaction, EthSendTransaction.exec, Execution.toRun, applyOptions,
      priceUnset, len, Except.map, hunlock, hbalance, hnle, hnonce, hprice, hchain,
      hsignLegacy, hsendLegacy]
  · simp [EthSendDynamicFeeTx, EthSendDynamicFeeTx.exec, Execution.toRun, applyFn,
      initialTxnState, DynamicFeeTx.deref, Except.map, hunlock, hbalance, hnle, hnonce,
      hprice, htip, hchain, hsignDynamic, hsendDynamic]

/-- C3 at balance 1000 and amount 500. -/
theorem no_overrides_sign_then_broadcast_witness :
    EthSendTransaction sampleClient sampleKeyStore "pw" alice bob (some 500) []
        = ⟨[.Unlock alice "pw", .BalanceAt alice.Address, .PendingNonceAt alice.Address,
            .SuggestGasPrice, .ChainID,
            .SignTx alice
              (NewTransaction 5 bob.Address (some 500) 21000 (some 30) (some []))
              (some 1337),
            .SendTransaction
              ⟨.Legacy ⟨5, bob.Address, some 500, 21000, some 30, some []⟩, some [1]⟩],
            .returned none⟩
      ∧ EthSendDynamicFeeTx sampleClient sampleKeyStore "pw" alice bob (some 500) []
        = ⟨[.Unlock alice "pw", .BalanceAt alice.Address, .ChainID,
            .PendingNonceAt alice.Address, .SuggestGasPrice, .SuggestGasTipCap,
            .SignTx alice
              (NewTx ⟨some 1337, 5, none, some 2, uint64 (Int64 30), some bob.Address,
                some 500, some []⟩)
              (some 1337),
            .SendTransaction
              ⟨.DynamicFee ⟨some 1337, 5, some 0, some 2, uint64 (Int64 30),
                some bob.Address, some 500, some []⟩, some [1]⟩],
            .returned none⟩ :=
  no_overrides_sign_then_broadcast sampleClient sampleKeyStore "pw" alice bob 500 1000 5 30 2
    1337 _ _ rfl rfl (by decide) rfl rfl rfl rfl rfl rfl rfl rfl

/-- The sample collaborators make every step before the signing succeed. -/
theorem sample_steps_succeed :
    StepsSucceed sampleClient sampleKeyStore "pw" alice (some 500) 500 5 30 2 1337 :=
  ⟨rfl, ⟨1000, rfl, by decide⟩, rfl, rfl, rfl, rfl, rfl⟩

/-- C4: on both entry points, when no override sets the nonce, every transaction handed
to the signer carries the nonce that the pending-nonce query, made for the sender address
during that call, returned; and when every step before the signing succeeds, such a
signing call is made. -/
theorem default_nonce_is_pending_nonce (eth_client : Client) (ks : KeyStore) (auth : String)
    (from_ to_ : Account) (amount : Option Int)
    (options : List SendTxnOption) (fn : List SetTxnData)
    (hoptions : Keeps opt.nonce options)
    (hfn : Keeps (fun s : TxnState => s.data.Nonce) fn) :
    (∀ a tx cid,
        Call.SignTx a tx cid ∈ (EthSendTransaction eth_client ks auth from_ to_ amount options).trace →
        Call.PendingNonceAt from_.Address
            ∈ (EthSendTransaction eth_client ks auth from_ to_ amount options).trace
          ∧ eth_client.PendingNonceAt from_.Address = .ok tx.Nonce)
      ∧ (∀ a tx cid,
        Call.SignTx a tx cid ∈ (EthSendDynamicFeeTx eth_client ks auth from_ to_ amount fn).trace →
        Call.PendingNonceAt from_.Address
            ∈ (EthSendDynamicFeeTx eth_client ks auth from_ to_ amount fn).trace
          ∧ eth_client.PendingNonceAt from_.Address = .ok tx.Nonce)
      ∧ (∀ amt n p t c, StepsSucceed eth_client ks auth from_ amount amt n p t c →
          (∃ tx cid, Call.SignTx from_ tx cid
              ∈ (EthSendTransaction eth_client ks auth from_ to_ amount options).trace
            ∧ tx.Nonce = n)
          ∧ (∃ tx cid, Call.SignTx from_ tx cid
              ∈ (EthSendDynamicFeeTx eth_client ks auth from_ to_ amount fn).trace
            ∧ tx.Nonce = n)) := by
  have hleg : ∀ a tx cid,
      Call.SignTx a tx cid ∈ (EthSendTransaction eth_client ks auth from_ to_ amount options).trace →
      Call.PendingNonceAt from_.Address
          ∈ (EthSendTransaction eth_client ks auth from_ to_ amount options).trace
        ∧ eth_client.PendingNonceAt from_.Address = .ok tx.Nonce := by
    intro a tx cid hmem
    obtain ⟨-, chainId, amt, nonce, gasPrice, -, -, -, -, rfl, hq, -, -, -⟩ :=
      legacy_signed eth_client ks auth from_ to_ amount options a tx cid hmem
    exact hq (foldl_keeps opt.nonce options hoptions {})
  have hdyn : ∀ a tx cid,
      Call.SignTx a tx cid ∈ (EthSendDynamicFeeTx eth_client ks auth from_ to_ amount fn).trace →
      Call.PendingNonceAt from_.Address
          ∈ (EthSendDynamicFeeTx eth_client ks auth from_ to_ amount fn).trace
        ∧ eth_client.PendingNonceAt from_.Address = .ok tx.Nonce := by
    intro a tx cid hmem
    obtain ⟨-, chainId, amt, s, nonce, gas, feeCap, -, -, hs, -, -, rfl, hq, -, -, -, -, -⟩ :=
      dynamic_signed eth_client ks auth from_ to_ amount fn a tx cid hmem
    have h0 : s.data.Nonce = 0 := by
      rw [← hs]
      exact foldl_keeps (fun s : TxnState => s.data.Nonce) fn hfn _
    exact hq h0
  refine ⟨hleg, hdyn, ?_⟩
  intro amt n p t c hsteps
  have hn : eth_client.PendingNonceAt from_.Address = .ok n := hsteps.2.2.2.1
  constructor
  · have hmem := legacy_reaches_signer eth_client ks auth from_ to_ amount options
      amt n p t c hsteps
    refine ⟨_, _, hmem, ?_⟩
    have h := (hleg _ _ _ hmem).2
    rw [hn] at h
    exact (Except.ok.inj h).symm
  · obtain ⟨tx, cid, hmem⟩ := dynamic_reaches_signer eth_client ks auth from_ to_ amount fn
      amt n p t c hsteps
    refine ⟨tx, cid, hmem, ?_⟩
    have h := (hdyn _ _ _ hmem).2
    rw [hn] at h
    exact (Except.ok.inj h).symm

/-- C4 with one override that sets only the gas limit: a signing call is made on both
entry points and the signed nonce is the pending nonce 5 of the sample node. -/
theorem default_nonce_is_pending_nonce_witness :
    (∃ tx cid, Call.SignTx alice tx cid
        ∈ (EthSendTransaction sampleClient sampleKeyStore "pw" alice bob (some 500)
            [withGasLimit 50000]).trace
      ∧ tx.Nonce = 5)
    ∧ (∃ tx cid, Call.SignTx alice tx cid
        ∈ (EthSendDynamicFeeTx sampleClient sampleKeyStore "pw" alice bob (some 500)
            [setGas 50000]).trace
      ∧ tx.Nonce = 5) :=
  (default_nonce_is_pending_nonce sampleClient sampleKeyStore "pw" alice bob (some 500)
    [withGasLimit 50000] [setGas 50000]
    (by
      intro f hf s
      rw [List.mem_singleton.mp hf]
      rfl)
    (by
      intro f hf s
      rw [List.mem_singleton.mp hf]
      rfl)).2.2 500 5 30 2 1337 sample_steps_succeed

/-- C5: when no override sets the price field, the gas price of the legacy transaction
handed to the signer is the suggested gas price of the node, and the fee cap of the
dynamic-fee transaction handed to the signer is the suggested tip cap of the node; and
when every step before the signing succeeds, such a signing call is made. -/
theorem default_price_is_suggestion (eth_client : Client) (ks : KeyStore) (auth : String)
    (from_ to_ : Account) (amount : Option Int)
    (options : List SendTxnOption) (fn : List SetTxnData)
    (hoptions : Keeps opt.gasPrice options)
    (hfn : Keeps (fun s : TxnState => s.data.GasFeeCap) fn) :
    (∀ a tx cid,
        Call.SignTx a tx cid ∈ (EthSendTransaction eth_client ks auth from_ to_ amount options).trace →
        Call.SuggestGasPrice
            ∈ (EthSendTransaction eth_client ks auth from_ to_ amount options).trace
          ∧ ∃ p, eth_client.SuggestGasPrice = .ok p ∧ tx.GasPrice = some p)
      ∧ (∀ a tx cid,
        Call.SignTx a tx cid ∈ (EthSendDynamicFeeTx eth_client ks auth from_ to_ amount fn).trace →
        Call.SuggestGasTipCap
            ∈ (EthSendDynamicFeeTx eth_client ks auth from_ to_ amount fn).trace
          ∧ ∃ t, eth_client.SuggestGasTipCap = .ok t ∧ tx.GasFeeCap = some t)
      ∧ (∀ amt n p t c, StepsSucceed eth_client ks auth from_ amount amt n p t c →
          (∃ tx cid, Call.SignTx from_ tx cid
              ∈ (EthSendTransaction eth_client ks auth from_ to_ amount options).trace
            ∧ tx.GasPrice = some p)
          ∧ (∃ tx cid, Call.SignTx from_ tx cid
              ∈ (EthSendDynamicFeeTx eth_client ks auth from_ to_ amount fn).trace
            ∧ tx.GasFeeCap = some t)) := by
  have hleg : ∀ a tx cid,
      Call.SignTx a tx cid ∈ (EthSendTransaction eth_client ks auth from_ to_ amount options).trace →
      Call.SuggestGasPrice
          ∈ (EthSendTransaction eth_client ks auth from_ to_ amount options).trace
        ∧ ∃ p, eth_client.SuggestGasPrice = .ok p ∧ tx.GasPrice = some p := by
    intro a tx cid hmem
    obtain ⟨-, chainId, amt, nonce, gasPrice, -, -, -, -, rfl, -, -, -, hq⟩ :=
      legacy_signed eth_client ks auth from_ to_ amount options a tx cid hmem
    have h0 : (applyOptions options {}).gasPrice = none :=
      foldl_keeps opt.gasPrice options hoptions {}
    have hu : priceUnset (applyOptions options {}).gasPrice = true := by rw [h0]; rfl
    obtain ⟨hm, p, hp, rfl⟩ := hq hu
    exact ⟨hm, p, hp, rfl⟩
  have hdyn : ∀ a tx cid,
      Call.SignTx a tx cid ∈ (EthSendDynamicFeeTx eth_client ks auth from_ to_ amount fn).trace →
      Call.SuggestGasTipCap
          ∈ (EthSendDynamicFeeTx eth_client ks auth from_ to_ amount fn).trace
        ∧ ∃ t, eth_client.SuggestGasTipCap = .ok t ∧ tx.GasFeeCap = some t := by
    intro a tx cid hmem
    obtain ⟨-, chainId, amt, s, nonce, gas, feeCap, -, -, hs, -, -, rfl, -, -, -, -, hq, -⟩ :=
      dynamic_signed eth_client ks auth from_ to_ amount fn a tx cid hmem
    have h0 : s.data.GasFeeCap = none := by
      rw [← hs]
      exact foldl_keeps (fun s : TxnState => s.data.GasFeeCap) fn hfn _
    obtain ⟨hm, t, ht, rfl⟩ := hq h0
    exact ⟨hm, t, ht, rfl⟩
  refine ⟨hleg, hdyn, ?_⟩
  intro amt n p t c hsteps
  have hp : eth_client.SuggestGasPrice = .ok p := hsteps.2.2.2.2.1
  have ht : eth_client.SuggestGasTipCap = .ok t := hsteps.2.2.2.2.2.1
  constructor
  · have hmem := legacy_reaches_signer eth_client ks auth from_ to_ amount options
      amt n p t c hsteps
    refine ⟨_, _, hmem, ?_⟩
    obtain ⟨-, q, hq, hprice⟩ := hleg _ _ _ hmem
    rw [hp] at hq
    rw [hprice, Except.ok.inj hq]
  · obtain ⟨tx, cid, hmem⟩ := dynamic_reaches_signer eth_client ks auth from_ to_ amount fn
      amt n p t c hsteps
    refine ⟨tx, cid, hmem, ?_⟩
    obtain ⟨-, q, hq, hcap⟩ := hdyn _ _ _ hmem
    rw [ht] at hq
    rw [hcap, Except.ok.inj hq]

/-- C5 with overrides that set the nonce and the gas limit but no price: a signing call
is made, the signed legacy gas price is the suggestion 30 and the signed fee cap is the
tip-cap suggestion 2 of the sample node. -/
theorem default_price_is_suggestion_witness :
    (∃ tx cid, Call.SignTx alice tx cid
        ∈ (EthSendTransaction sampleClient sampleKeyStore "pw" alice bob (some 500)
            [withNonce 7, withGasLimit 50000]).trace
      ∧ tx.GasPrice = some 30)
    ∧ (∃ tx cid, Call.SignTx alice tx cid
        ∈ (EthSendDynamicFeeTx sampleClient sampleKeyStore "pw" alice bob (some 500)
            [setNonce 7, setGas 50000]).trace
      ∧ tx.GasFeeCap = some 2) :=
  (default_price_is_suggestion sampleClient sampleKeyStore "pw" alice bob (some 500)
    [withNonce 7, withGasLimit 50000] [setNonce 7, setGas 50000]
    (by
      intro f hf s
      simp only [List.mem_cons, List.mem_singleton, List.mem_nil_iff, or_false] at hf
      rcases hf with rfl | rfl <;> rfl)
    (by
      intro f hf s
      simp only [List.mem_cons, List.mem_singleton, List.mem_nil_iff, or_false] at hf
      rcases hf with rfl | rfl <;> rfl)).2.2 500 5 30 2 1337 sample_steps_succeed

/-- C6: on both entry points the overrides are applied in the order supplied: the
parameters handed to the signer are resolved from the options as the override loop
(`applyOptions`, `applyFn`) left them, so that, when the last override writing the nonce
(respectively the gas limit) writes a non-zero value, every transaction handed to the
signer carries exactly that value, whatever the earlier overrides wrote and whatever the
node would have suggested; and when every step before the signing succeeds, such a signing
call is made. -/
theorem last_override_wins (eth_client : Client) (ks : KeyStore) (auth : String)
    (from_ to_ : Account) (amount : Option Int)
    (options : List SendTxnOption) (fn : List SetTxnData) :
    (∀ v, v ≠ 0 → LastWrites opt.nonce options v → ∀ a tx cid,
        Call.SignTx a tx cid
          ∈ (EthSendTransaction eth_client ks auth from_ to_ amount options).trace →
        tx.Nonce = v)
      ∧ (∀ v, v ≠ 0 → LastWrites opt.gasLimit options v → ∀ a tx cid,
          Call.SignTx a tx cid
            ∈ (EthSendTransaction eth_client ks auth from_ to_ amount options).trace →
          tx.Gas = v)
      ∧ (∀ v, v ≠ 0 → LastWrites (fun s : TxnState => s.data.Nonce) fn v → ∀ a tx cid,
          Call.SignTx a tx cid
            ∈ (EthSendDynamicFeeTx eth_client ks auth from_ to_ amount fn).trace →
          tx.Nonce = v)
      ∧ (∀ v, v ≠ 0 → LastWrites (fun s : TxnState => s.data.Gas) fn v → ∀ a tx cid,
          Call.SignTx a tx cid
            ∈ (EthSendDynamicFeeTx eth_client ks auth from_ to_ amount fn).trace →
          tx.Gas = v)
      ∧ (∀ amt n p t c, StepsSucceed eth_client ks auth from_ amount amt n p t c →
          (∀ v, v ≠ 0 → LastWrites opt.nonce options v →
            ∃ tx cid, Call.SignTx from_ tx cid
                ∈ (EthSendTransaction eth_client ks auth from_ to_ amount options).trace
              ∧ tx.Nonce = v)
          ∧ (∀ v, v ≠ 0 → LastWrites opt.gasLimit options v →
            ∃ tx cid, Call.SignTx from_ tx cid
                ∈ (EthSendTransaction eth_client ks auth from_ to_ amount options).trace
              ∧ tx.Gas = v)
          ∧ (∀ v, v ≠ 0 → LastWrites (fun s : TxnState => s.data.Nonce) fn v →
            ∃ tx cid, Call.SignTx from_ tx cid
                ∈ (EthSendDynamicFeeTx eth_client ks auth from_ to_ amount fn).trace
              ∧ tx.Nonce = v)
          ∧ (∀ v, v ≠ 0 → LastWrites (fun s : TxnState => s.data.Gas) fn v →
            ∃ tx cid, Call.SignTx from_ tx cid
                ∈ (EthSendDynamicFeeTx eth_client ks auth from_ to_ amount fn).trace
              ∧ tx.Gas = v)
          ∧ (∃ tx cid nonce gasLimit gasPrice data,
              Call.SignTx from_ tx cid
                ∈ (EthSendTransaction eth_client ks auth from_ to_ amount options).trace
              ∧ tx = NewTransaction nonce to_.Address (some amt) gasLimit gasPrice data
              ∧ nonce = (if (applyOptions options {}).nonce = 0 then n
                  else (applyOptions options {}).nonce)
              ∧ gasLimit = (if (applyOptions options {}).gasLimit = 0
                  then 21000 else (applyOptions options {}).gasLimit)
              ∧ gasPrice = (if priceUnset (applyOptions options {}).gasPrice
                  = true then some p
                  else (applyOptions options {}).gasPrice)
              ∧ data = (if len (applyOptions options {}).data = 0
                  then some [] else (applyOptions options {}).data))
          ∧ (∃ tx cid nonce gas,
              Call.SignTx from_ tx cid
                ∈ (EthSendDynamicFeeTx eth_client ks auth from_ to_ amount fn).trace
              ∧ tx.Nonce = nonce ∧ tx.Gas = gas
              ∧ nonce = (if (applyFn fn (initialTxnState c to_ amt)).data.Nonce = 0 then n
                  else (applyFn fn (initialTxnState c to_ amt)).data.Nonce)
              ∧ gas = (if (applyFn fn (initialTxnState c to_ amt)).data.Gas = 0 then uint64 (Int64 p)
                  else (applyFn fn (initialTxnState c to_ amt)).data.Gas))) := by
  have h1 : ∀ v, v ≠ 0 → LastWrites opt.nonce options v → ∀ a tx cid,
      Call.SignTx a tx cid
        ∈ (EthSendTransaction eth_client ks auth from_ to_ amount options).trace →
      tx.Nonce = v := by
    intro v hv hlast a tx cid hmem
    obtain ⟨-, chainId, amt, nonce, gasPrice, -, -, -, -, rfl, -, hq, -, -⟩ :=
      legacy_signed eth_client ks auth from_ to_ amount options a tx cid hmem
    have h0 : (applyOptions options {}).nonce = v := foldl_lastWrites opt.nonce options v hlast {}
    have hnonce : nonce = (applyOptions options {}).nonce := hq (by rw [h0]; exact hv)
    rw [← h0, ← hnonce]
    rfl
  have h2 : ∀ v, v ≠ 0 → LastWrites opt.gasLimit options v → ∀ a tx cid,
      Call.SignTx a tx cid
        ∈ (EthSendTransaction eth_client ks auth from_ to_ amount options).trace →
      tx.Gas = v := by
    intro v hv hlast a tx cid hmem
    obtain ⟨-, chainId, amt, nonce, gasPrice, -, -, -, -, rfl, -, -, -, -⟩ :=
      legacy_signed eth_client ks auth from_ to_ amount options a tx cid hmem
    have h0 : (applyOptions options {}).gasLimit = v :=
      foldl_lastWrites opt.gasLimit options v hlast {}
    simp [Transaction.Gas, NewTransaction, LegacyTx.copy, h0, hv]
  have h3 : ∀ v, v ≠ 0 → LastWrites (fun s : TxnState => s.data.Nonce) fn v → ∀ a tx cid,
      Call.SignTx a tx cid
        ∈ (EthSendDynamicFeeTx eth_client ks auth from_ to_ amount fn).trace →
      tx.Nonce = v := by
    intro v hv hlast a tx cid hmem
    obtain ⟨-, chainId, amt, s, nonce, gas, feeCap, -, -, hs, -, -, rfl, -, hq, -, -, -, -⟩ :=
      dynamic_signed eth_client ks auth from_ to_ amount fn a tx cid hmem
    have h0 : s.data.Nonce = v := by
      rw [← hs]
      exact foldl_lastWrites (fun s : TxnState => s.data.Nonce) fn v hlast _
    have hnonce : nonce = s.data.Nonce := hq (by rw [h0]; exact hv)
    rw [← h0, ← hnonce]
    rfl
  have h4 : ∀ v, v ≠ 0 → LastWrites (fun s : TxnState => s.data.Gas) fn v → ∀ a tx cid,
      Call.SignTx a tx cid
        ∈ (EthSendDynamicFeeTx eth_client ks auth from_ to_ amount fn).trace →
      tx.Gas = v := by
    intro v hv hlast a tx cid hmem
    obtain ⟨-, chainId, amt, s, nonce, gas, feeCap, -, -, hs, -, -, rfl, -, -, -, hq, -, -⟩ :=
      dynamic_signed eth_client ks auth from_ to_ amount fn a tx cid hmem
    have h0 : s.data.Gas = v := by
      rw [← hs]
      exact foldl_lastWrites (fun s : TxnState => s.data.Gas) fn v hlast _
    have hgas : gas = s.data.Gas := hq (by rw [h0]; exact hv)
    rw [← h0, ← hgas]
    rfl
  refine ⟨h1, h2, h3, h4, ?_⟩
  intro amt n p t c hsteps
  have hleg := legacy_reaches_signer eth_client ks auth from_ to_ amount options
    amt n p t c hsteps
  obtain ⟨tx, cid, hdyn⟩ := dynamic_reaches_signer eth_client ks auth from_ to_ amount fn
    amt n p t c hsteps
  refine ⟨fun v hv hl => ⟨_, _, hleg, h1 v hv hl _ _ _ hleg⟩,
    fun v hv hl => ⟨_, _, hleg, h2 v hv hl _ _ _ hleg⟩,
    fun v hv hl => ⟨_, _, hdyn, h3 v hv hl _ _ _ hdyn⟩,
    fun v hv hl => ⟨_, _, hdyn, h4 v hv hl _ _ _ hdyn⟩,
    ⟨_, _, _, _, _, _, hleg, rfl, rfl, rfl, rfl, rfl⟩, ?_⟩
  obtain ⟨-, chainId, amt2, s, nonce, gas, feeCap, hc, hamt, hs, -, -, rfl, q1, q2, q3, q4, -,
    -⟩ := dynamic_signed eth_client ks auth from_ to_ amount fn _ tx cid hdyn
  obtain ⟨-, -, hamt0, hn, hp, -, hc0⟩ := hsteps
  have e1 : chainId = c := by
    rw [hc0] at hc
    exact (Except.ok.inj hc).symm
  have e2 : amt2 = amt := by
    rw [hamt0] at hamt
    exact (Option.some.inj hamt).symm
  subst e1 e2
  refine ⟨_, _, nonce, gas, hdyn, rfl, rfl, ?_, ?_⟩
  · show nonce = if (applyFn fn (initialTxnState chainId to_ amt2)).data.Nonce = 0 then n
      else (applyFn fn (initialTxnState chainId to_ amt2)).data.Nonce
    rw [hs]
    by_cases h0 : s.data.Nonce = 0
    · rw [if_pos h0]
      have := (q1 h0).2
      rw [hn] at this
      exact (Except.ok.inj this).symm
    · rw [if_neg h0]
      exact q2 h0
  · show gas = if (applyFn fn (initialTxnState chainId to_ amt2)).data.Gas = 0
      then uint64 (Int64 p) else (applyFn fn (initialTxnState chainId to_ amt2)).data.Gas
    rw [hs]
    by_cases h0 : s.data.Gas = 0
    · rw [if_pos h0]
      obtain ⟨-, v, hv, rfl⟩ := q3 h0
      rw [hp] at hv
      rw [Except.ok.inj hv]
    · rw [if_neg h0]
      exact q4 h0

/-- C6 with overrides nonce 3, then nonce 7, then gas limit 50000: a signing call is made
and the signed transaction carries nonce 7 and gas limit 50000 on both entry points. -/
theorem last_override_wins_witness :
    (∃ tx cid, Call.SignTx alice tx cid
        ∈ (EthSendTransaction sampleClient sampleKeyStore "pw" alice bob (some 500)
            [withNonce 3, withNonce 7, withGasLimit 50000]).trace
      ∧ tx.Nonce = 7)
    ∧ (∃ tx cid, Call.SignTx alice tx cid
        ∈ (EthSendTransaction sampleClient sampleKeyStore "pw" alice bob (some 500)
            [withNonce 3, withNonce 7, withGasLimit 50000]).trace
      ∧ tx.Gas = 50000)
    ∧ (∃ tx cid, Call.SignTx alice tx cid
        ∈ (EthSendDynamicFeeTx sampleClient sampleKeyStore "pw" alice bob (some 500)
            [setNonce 3, setNonce 7, setGas 50000]).trace
      ∧ tx.Nonce = 7)
    ∧ (∃ tx cid, Call.SignTx alice tx cid
        ∈ (EthSendDynamicFeeTx sampleClient sampleKeyStore "pw" alice bob (some 500)
            [setNonce 3, setNonce 7, setGas 50000]).trace
      ∧ tx.Gas = 50000) :=
  have hk : Keeps opt.nonce [withGasLimit 50000] := by
    intro f hf s
    rw [List.mem_singleton.mp hf]
    rfl
  have hkd : Keeps (fun s : TxnState => s.data.Nonce) [setGas 50000] := by
    intro f hf s
    rw [List.mem_singleton.mp hf]
    rfl
  have h := (last_override_wins sampleClient sampleKeyStore "pw" alice bob (some 500)
    [withNonce 3, withNonce 7, withGasLimit 50000]
    [setNonce 3, setNonce 7, setGas 50000]).2.2.2.2 500 5 30 2 1337 sample_steps_succeed
  ⟨h.1 7 (by decide)
      ⟨[withNonce 3], withNonce 7, [withGasLimit 50000], rfl, fun _ => rfl, hk⟩,
    h.2.1 50000 (by decide)
      ⟨[withNonce 3, withNonce 7], withGasLimit 50000, [], rfl, fun _ => rfl,
        fun _ hf => nomatch hf⟩,
    h.2.2.1 7 (by decide)
      ⟨[setNonce 3], setNonce 7, [setGas 50000], rfl, fun _ => rfl, hkd⟩,
    h.2.2.2.1 50000 (by decide)
      ⟨[setNonce 3, setNonce 7], setGas 50000, [], rfl, fun _ => rfl,
        fun _ hf => nomatch hf⟩⟩

/-- C8: when no override sets the gas limit, the legacy transaction handed to the
signer has gas limit 21000 and every node query of the trace is the balance query, the
chain-id query, the nonce query of an unset nonce or the gas-price query of an unset
price; the dynamic-fee transaction handed to the signer has as gas limit the suggested gas
price converted to an unsigned 64-bit integer, which is the suggestion itself whenever
that lies between 0 and 2^63 - 1; and when every step before the signing succeeds, such a
signing call is made. -/
theorem default_gas_limit (eth_client : Client) (ks : KeyStore) (auth : String)
    (from_ to_ : Account) (amount : Option Int)
    (options : List SendTxnOption) (fn : List SetTxnData)
    (hoptions : Keeps opt.gasLimit options)
    (hfn : Keeps (fun s : TxnState => s.data.Gas) fn) :
    (∀ a tx cid,
        Call.SignTx a tx cid ∈ (EthSendTransaction eth_client ks auth from_ to_ amount options).trace →
        tx.Gas = 21000)
      ∧ (∀ c ∈ (EthSendTransaction eth_client ks auth from_ to_ amount options).trace,
          c = .Unlock from_ auth ∨ c = .BalanceAt from_.Address
          ∨ (c = .PendingNonceAt from_.Address ∧ (applyOptions options {}).nonce = 0)
          ∨ (c = .SuggestGasPrice ∧ priceUnset (applyOptions options {}).gasPrice = true)
          ∨ c = .ChainID ∨ c.isSignTx = true ∨ c.isSendTransaction = true)
      ∧ (∀ a tx cid,
        Call.SignTx a tx cid ∈ (EthSendDynamicFeeTx eth_client ks auth from_ to_ amount fn).trace →
        Call.SuggestGasPrice
            ∈ (EthSendDynamicFeeTx eth_client ks auth from_ to_ amount fn).trace
          ∧ ∃ v, eth_client.SuggestGasPrice = .ok v ∧ tx.Gas = uint64 (Int64 v)
            ∧ (0 ≤ v → v < 2 ^ 63 → (tx.Gas : Int) = v))
      ∧ (∀ amt n p t c, StepsSucceed eth_client ks auth from_ amount amt n p t c →
          (∃ tx cid, Call.SignTx from_ tx cid
              ∈ (EthSendTransaction eth_client ks auth from_ to_ amount options).trace
            ∧ tx.Gas = 21000)
          ∧ (∃ tx cid, Call.SignTx from_ tx cid
              ∈ (EthSendDynamicFeeTx eth_client ks auth from_ to_ amount fn).trace
            ∧ tx.Gas = uint64 (Int64 p)
            ∧ (0 ≤ p → p < 2 ^ 63 → (tx.Gas : Int) = p))) := by
  have hleg : ∀ a tx cid,
      Call.SignTx a tx cid ∈ (EthSendTransaction eth_client ks auth from_ to_ amount options).trace →
      tx.Gas = 21000 := by
    intro a tx cid hmem
    obtain ⟨-, chainId, amt, nonce, gasPrice, -, -, -, -, rfl, -, -, -, -⟩ :=
      legacy_signed eth_client ks auth from_ to_ amount options a tx cid hmem
    have h0 : (applyOptions options {}).gasLimit = 0 :=
      foldl_keeps opt.gasLimit options hoptions {}
    simp [Transaction.Gas, NewTransaction, LegacyTx.copy, h0]
  have hdyn : ∀ a tx cid,
      Call.SignTx a tx cid ∈ (EthSendDynamicFeeTx eth_client ks auth from_ to_ amount fn).trace →
      Call.SuggestGasPrice
          ∈ (EthSendDynamicFeeTx eth_client ks auth from_ to_ amount fn).trace
        ∧ ∃ v, eth_client.SuggestGasPrice = .ok v ∧ tx.Gas = uint64 (Int64 v)
          ∧ (0 ≤ v → v < 2 ^ 63 → (tx.Gas : Int) = v) := by
    intro a tx cid hmem
    obtain ⟨-, chainId, amt, s, nonce, gas, feeCap, -, -, hs, -, -, rfl, -, -, hq, -, -, -⟩ :=
      dynamic_signed eth_client ks auth from_ to_ amount fn a tx cid hmem
    have h0 : s.data.Gas = 0 := by
      rw [← hs]
      exact foldl_keeps (fun s : TxnState => s.data.Gas) fn hfn _
    obtain ⟨hm, v, hv, rfl⟩ := hq h0
    exact ⟨hm, v, hv, rfl, fun hnonneg hlt => uint64_Int64_of_nonneg v hnonneg hlt⟩
  refine ⟨hleg, ?_, hdyn, ?_⟩
  · exact (legacy_run_facts eth_client ks auth from_ to_ amount options _ _ rfl rfl).2.2.2.2.2.1
  · intro amt n p t c hsteps
    have hp : eth_client.SuggestGasPrice = .ok p := hsteps.2.2.2.2.1
    constructor
    · have hmem := legacy_reaches_signer eth_client ks auth from_ to_ amount options
        amt n p t c hsteps
      exact ⟨_, _, hmem, hleg _ _ _ hmem⟩
    · obtain ⟨tx, cid, hmem⟩ := dynamic_reaches_signer eth_client ks auth from_ to_ amount fn
        amt n p t c hsteps
      obtain ⟨-, v, hv, hgas, hid⟩ := hdyn _ _ _ hmem
      rw [hp] at hv
      have e : v = p := (Except.ok.inj hv).symm
      subst e
      exact ⟨tx, cid, hmem, hgas, hid⟩

/-- C8 with an override that sets only the nonce, at the sample node, whose suggested
gas price is 30: a signing call is made, the legacy gas limit is 21000 and the dynamic-fee
gas limit is 30. -/
theorem default_gas_limit_witness :
    (∃ tx cid, Call.SignTx alice tx cid
        ∈ (EthSendTransaction sampleClient sampleKeyStore "pw" alice bob (some 500)
            [withNonce 7]).trace
      ∧ tx.Gas = 21000)
    ∧ (∃ tx cid, Call.SignTx alice tx cid
        ∈ (EthSendDynamicFeeTx sampleClient sampleKeyStore "pw" alice bob (some 500)
            [setNonce 7]).trace
      ∧ tx.Gas = uint64 (Int64 30)
      ∧ ((0 : Int) ≤ 30 → (30 : Int) < 2 ^ 63 → (tx.Gas : Int) = 30)) :=
  (default_gas_limit sampleClient sampleKeyStore "pw" alice bob (some 500)
    [withNonce 7] [setNonce 7]
    (by
      intro f hf s
      rw [List.mem_singleton.mp hf]
      rfl)
    (by
      intro f hf s
      rw [List.mem_singleton.mp hf]
      rfl)).2.2.2 500 5 30 2 1337 sample_steps_succeed

/-- C7, the claim as stated fails: with no overrides and every collaborator succeeding,
the dynamic-fee parameters handed to the factory (line 198) have a nil tip cap. -/
theorem factory_tip_cap_is_nil_without_overrides :
    ∃ d, (EthSendDynamicFeeTx.exec sampleClient sampleKeyStore "pw" alice bob (some 500)
          []).built = some (.DynamicFee d)
      ∧ d = ⟨some 1337, 5, none, some 2, 30, some bob.Address, some 500, some []⟩
      ∧ d.GasTipCap = none :=
  ⟨_, by decide, rfl, rfl⟩

/-- C7 as amended: whenever a call reaches the signing step, with any override
sequence, the chain identifier handed to the signer is not nil and the transaction handed
to the signer has no nil big integer: value and gas price on the legacy path, chain
identifier, value, fee cap and tip cap on the dynamic-fee path (the factory stores 0 for
a nil one). Of the parameters handed to the factory, the legacy value, gas price and
payload are not nil; the dynamic-fee fee cap is not nil, and each of the chain
identifier, the recipient, the value and the payload is not nil when no override sets it.
The tip cap handed to the factory is not covered. When every step before the signing
succeeds, the factory and the signer are reached. -/
theorem handed_fields_are_concrete (eth_client : Client) (ks : KeyStore) (auth : String)
    (from_ to_ : Account) (amount : Option Int)
    (options : List SendTxnOption) (fn : List SetTxnData) :
    (∀ a tx cid,
        Call.SignTx a tx cid ∈ (EthSendTransaction eth_client ks auth from_ to_ amount options).trace →
        cid ≠ none ∧ ∃ l, tx.inner = .Legacy l
          ∧ l.Value ≠ none ∧ l.GasPrice ≠ none ∧ l.Data ≠ none)
      ∧ (∀ input,
        (EthSendTransaction.exec eth_client ks auth from_ to_ amount options).built
          = some input →
        ∃ l, input = .Legacy l ∧ l.Value ≠ none ∧ l.GasPrice ≠ none ∧ l.Data ≠ none)
      ∧ (∀ a tx cid,
        Call.SignTx a tx cid ∈ (EthSendDynamicFeeTx eth_client ks auth from_ to_ amount fn).trace →
        cid ≠ none ∧ ∃ d, tx.inner = .DynamicFee d
          ∧ d.ChainID ≠ none ∧ d.GasTipCap ≠ none ∧ d.GasFeeCap ≠ none ∧ d.Value ≠ none
          ∧ (Keeps (fun s : TxnState => s.data.To) fn → d.To ≠ none)
          ∧ (Keeps (fun s : TxnState => s.data.Data) fn → d.Data ≠ none))
      ∧ (∀ input,
        (EthSendDynamicFeeTx.exec eth_client ks auth from_ to_ amount fn).built
          = some input →
        ∃ d, input = .DynamicFee d
          ∧ d.GasFeeCap ≠ none
          ∧ (Keeps (fun s : TxnState => s.data.ChainID) fn → d.ChainID ≠ none)
          ∧ (Keeps (fun s : TxnState => s.data.To) fn → d.To ≠ none)
          ∧ (Keeps (fun s : TxnState => s.data.Value) fn → d.Value ≠ none)
          ∧ (Keeps (fun s : TxnState => s.data.Data) fn → d.Data ≠ none))
      ∧ (∀ amt n p t c, StepsSucceed eth_client ks auth from_ amount amt n p t c →
          (∃ tx cid input, Call.SignTx from_ tx cid
              ∈ (EthSendTransaction eth_client ks auth from_ to_ amount options).trace
            ∧ (EthSendTransaction.exec eth_client ks auth from_ to_ amount options).built
              = some input)
          ∧ (∃ tx cid input, Call.SignTx from_ tx cid
              ∈ (EthSendDynamicFeeTx eth_client ks auth from_ to_ amount fn).trace
            ∧ (EthSendDynamicFeeTx.exec eth_client ks auth from_ to_ amount fn).built
              = some input)) := by
  have hprice : ∀ gasPrice : Option Int,
      (priceUnset (applyOptions options {}).gasPrice = false →
        gasPrice = (applyOptions options {}).gasPrice) →
      (priceUnset (applyOptions options {}).gasPrice = true →
        Call.SuggestGasPrice
            ∈ (EthSendTransaction.exec eth_client ks auth from_ to_ amount options).trace
          ∧ ∃ p, eth_client.SuggestGasPrice = .ok p ∧ gasPrice = some p) →
      gasPrice ≠ none := by
    intro gasPrice hset hunset
    by_cases hu : priceUnset (applyOptions options {}).gasPrice = true
    · obtain ⟨-, p, -, rfl⟩ := hunset hu
      simp
    · rw [hset (by simpa using hu)]
      intro hnone
      rw [hnone] at hu
      exact hu rfl
  have hdata : (if len (applyOptions options {}).data = 0 then some []
      else (applyOptions options {}).data) ≠ none := by
    split
    · simp
    · rename_i hlen
      intro hnone
      rw [hnone] at hlen
      exact hlen rfl
  have hfee : ∀ (s : TxnState) (feeCap : Option Int),
      (s.data.GasFeeCap = none → ∃ t : Int, feeCap = some t) →
      (s.data.GasFeeCap ≠ none → feeCap = s.data.GasFeeCap.map s.heap) →
      feeCap ≠ none := by
    intro s feeCap hunset hset
    by_cases hf : s.data.GasFeeCap = none
    · obtain ⟨t, rfl⟩ := hunset hf
      simp
    · rw [hset hf]
      simpa using hf
  have hkeep : ∀ {α : Type} (p : DynamicFeeTx → Option α) (chainId amt : Int),
      Keeps (fun s : TxnState => p s.data) fn →
      p (initialTxnState chainId to_ amt).data ≠ none →
      p (applyFn fn (initialTxnState chainId to_ amt)).data ≠ none := by
    intro α p chainId amt hk hinit
    have := foldl_keeps (fun s : TxnState => p s.data) fn hk (initialTxnState chainId to_ amt)
    show p (fn.foldl (fun acc f => f acc) (initialTxnState chainId to_ amt)).data ≠ none
    rw [this]
    exact hinit
  have hfactoryL : ∀ input,
      (EthSendTransaction.exec eth_client ks auth from_ to_ amount options).built
        = some input →
      ∃ l, input = .Legacy l ∧ l.Value ≠ none ∧ l.GasPrice ≠ none ∧ l.Data ≠ none := by
    intro input hb
    obtain ⟨_, _, _, _, _, _, h7⟩ :=
      legacy_run_facts eth_client ks auth from_ to_ amount options _ _ rfl rfl
    obtain ⟨amt, nonce, gasPrice, -, rfl, -, -, hset, hunset⟩ := h7 input hb
    exact ⟨_, rfl, by simp, hprice gasPrice hset hunset, hdata⟩
  have hfactoryD : ∀ input,
      (EthSendDynamicFeeTx.exec eth_client ks auth from_ to_ amount fn).built
        = some input →
      ∃ d, input = .DynamicFee d
        ∧ d.GasFeeCap ≠ none
        ∧ (Keeps (fun s : TxnState => s.data.ChainID) fn → d.ChainID ≠ none)
        ∧ (Keeps (fun s : TxnState => s.data.To) fn → d.To ≠ none)
        ∧ (Keeps (fun s : TxnState => s.data.Value) fn → d.Value ≠ none)
        ∧ (Keeps (fun s : TxnState => s.data.Data) fn → d.Data ≠ none) := by
    intro input hb
    obtain ⟨chainId, amt, s, nonce, gas, feeCap, -, -, hs, rfl, -, -, -, -, -, hunset, hset⟩ :=
      dynamic_built eth_client ks auth from_ to_ amount fn input hb
    refine ⟨_, rfl, ?_, ?_, ?_, ?_, ?_⟩
    · exact hfee s feeCap (fun hf => by
        obtain ⟨-, t, -, ht⟩ := hunset hf
        exact ⟨t, ht⟩) hset
    · intro hk
      have := hkeep DynamicFeeTx.ChainID chainId amt hk (by simp [initialTxnState])
      rw [hs] at this
      simpa [DynamicFeeTx.deref] using this
    · intro hk
      have := hkeep DynamicFeeTx.To chainId amt hk (by simp [initialTxnState])
      rw [hs] at this
      simpa [DynamicFeeTx.deref] using this
    · intro hk
      have := hkeep DynamicFeeTx.Value chainId amt hk (by simp [initialTxnState])
      rw [hs] at this
      simpa [DynamicFeeTx.deref] using this
    · intro hk
      have := hkeep DynamicFeeTx.Data chainId amt hk (by simp [initialTxnState])
      rw [hs] at this
      simpa [DynamicFeeTx.deref] using this
  refine ⟨?_, hfactoryL, ?_, hfactoryD, ?_⟩
  · intro a tx cid hmem
    obtain ⟨-, chainId, amt, nonce, gasPrice, -, rfl, -, -, rfl, -, -, -, -⟩ :=
      legacy_signed eth_client ks auth from_ to_ amount options a tx cid hmem
    exact ⟨by simp, _, rfl, by simp [LegacyTx.copy], by simp [LegacyTx.copy], hdata⟩
  · intro a tx cid hmem
    obtain ⟨-, chainId, amt, s, nonce, gas, feeCap, -, -, hs, rfl, hb, rfl, -⟩ :=
      dynamic_signed eth_client ks auth from_ to_ amount fn a tx cid hmem
    obtain ⟨d, hd, -, -, hto, -, hdt⟩ := hfactoryD _ hb
    simp only [TxData.DynamicFee.injEq] at hd
    subst hd
    exact ⟨by simp, _, rfl, by simp [DynamicFeeFields.copy], by simp [DynamicFeeFields.copy],
      by simp [DynamicFeeFields.copy], by simp [DynamicFeeFields.copy], hto, hdt⟩
  · intro amt n p t c hsteps
    constructor
    · have hmem := legacy_reaches_signer eth_client ks auth from_ to_ amount options
        amt n p t c hsteps
      obtain ⟨-, _, _, _, _, -, -, -, hb, -⟩ :=
        legacy_signed eth_client ks auth from_ to_ amount options _ _ _ hmem
      exact ⟨_, _, _, hmem, hb⟩
    · obtain ⟨tx, cid, hmem⟩ := dynamic_reaches_signer eth_client ks auth from_ to_ amount fn
        amt n p t c hsteps
      obtain ⟨-, _, _, _, _, _, _, -, -, -, -, hb, -⟩ :=
        dynamic_signed eth_client ks auth from_ to_ amount fn _ _ _ hmem
      exact ⟨_, _, _, hmem, hb⟩

/-- C7 as amended, at the sample node with overrides that set the nonce and the gas
limit: the factory and the signer are reached on both entry points. -/
theorem handed_fields_are_concrete_witness :
    (∃ tx cid input, Call.SignTx alice tx cid
        ∈ (EthSendTransaction sampleClient sampleKeyStore "pw" alice bob (some 500)
            [withNonce 7, withGasLimit 50000]).trace
      ∧ (EthSendTransaction.exec sampleClient sampleKeyStore "pw" alice bob (some 500)
            [withNonce 7, withGasLimit 50000]).built = some input)
    ∧ (∃ tx cid input, Call.SignTx alice tx cid
        ∈ (EthSendDynamicFeeTx sampleClient sampleKeyStore "pw" alice bob (some 500)
            [setNonce 7, setGas 50000]).trace
      ∧ (EthSendDynamicFeeTx.exec sampleClient sampleKeyStore "pw" alice bob (some 500)
            [setNonce 7, setGas 50000]).built = some input) :=
  (handed_fields_are_concrete sampleClient sampleKeyStore "pw" alice bob (some 500)
    [withNonce 7, withGasLimit 50000] [setNonce 7, setGas 50000]).2.2.2.2
    500 5 30 2 1337 sample_steps_succeed

/-- C9, the claim as stated fails: an override that assigns a new big integer 5 to the
chain-identifier field, while the node reports 1337, makes the signer receive 1337 for a
transaction that carries 5. -/
theorem signer_chain_id_differs_from_overridden :
    Call.SignTx alice
        ⟨.DynamicFee ⟨some 5, 5, some 0, some 2, 30, some bob.Address, some 500, some []⟩,
          none⟩
        (some 1337)
        ∈ (EthSendDynamicFeeTx sampleClient sampleKeyStore "pw" alice bob (some 500)
            [setChainID 5]).trace
      ∧ (some 5 : Option Int) ≠ some 1337 := by
  decide

/-- C9 as amended: in `EthSendDynamicFeeTx`, for every override sequence, the chain
identifier handed to the signer is the big integer the chain-id query returned, as the
overrides left it (the queried number itself when no override changes that big integer),
and the transaction being signed carries the big integer the chain-identifier field points
to after the overrides; the two are equal whenever the field still points to the queried
big integer, in particular when no override assigns the field, changes made in place
included. When every step before the signing succeeds, the signing call is made. -/
theorem signer_chain_id_is_queried (eth_client : Client) (ks : KeyStore) (auth : String)
    (from_ to_ : Account) (amount : Option Int) (fn : List SetTxnData) :
    (∀ a tx cid,
        Call.SignTx a tx cid ∈ (EthSendDynamicFeeTx eth_client ks auth from_ to_ amount fn).trace →
        ∃ chainId amt d, eth_client.ChainID = .ok chainId ∧ amount = some amt
          ∧ tx.inner = .DynamicFee d
          ∧ cid = some ((applyFn fn (initialTxnState chainId to_ amt)).heap .chainId)
          ∧ d.ChainID = some (((applyFn fn (initialTxnState chainId to_ amt)).data.ChainID.map
              (applyFn fn (initialTxnState chainId to_ amt)).heap).getD 0)
          ∧ ((applyFn fn (initialTxnState chainId to_ amt)).data.ChainID = some .chainId →
              d.ChainID = cid)
          ∧ (Keeps (fun s : TxnState => s.data.ChainID) fn → d.ChainID = cid)
          ∧ (Keeps (fun s : TxnState => s.heap .chainId) fn → cid = some chainId))
      ∧ (∀ amt n p t c, StepsSucceed eth_client ks auth from_ amount amt n p t c →
          ∃ tx cid, Call.SignTx from_ tx cid
            ∈ (EthSendDynamicFeeTx eth_client ks auth from_ to_ amount fn).trace) := by
  refine ⟨?_, fun amt n p t c hsteps =>
    dynamic_reaches_signer eth_client ks auth from_ to_ amount fn amt n p t c hsteps⟩
  intro a tx cid hmem
  obtain ⟨-, chainId, amt, s, nonce, gas, feeCap, hc, ha, hs, rfl, -, rfl, -⟩ :=
    dynamic_signed eth_client ks auth from_ to_ amount fn a tx cid hmem
  have hptr : s.data.ChainID = some .chainId →
      some ((s.data.ChainID.map s.heap).getD 0) = some (s.heap .chainId) := by
    intro h
    rw [h]
    rfl
  refine ⟨chainId, amt, _, hc, ha, rfl, by rw [hs], ?_, ?_, ?_, ?_⟩
  · rw [hs]
    rfl
  · rw [hs]
    exact hptr
  · intro hk
    have := foldl_keeps (fun s : TxnState => s.data.ChainID) fn hk
      (initialTxnState chainId to_ amt)
    exact hptr (by
      rw [← hs]
      exact this)
  · intro hk
    have := foldl_keeps (fun s : TxnState => s.heap .chainId) fn hk
      (initialTxnState chainId to_ amt)
    rw [← hs]
    exact congrArg some this

/-- C9 as amended, with an override that changes the queried big integer in place to 5
and one that sets the gas limit: the signing call is made, and the signer receives 5 for
a transaction that carries 5. -/
theorem signer_chain_id_is_queried_witness :
    Call.SignTx alice
        ⟨.DynamicFee ⟨some 5, 5, some 0, some 2, 50000, some bob.Address, some 500,
          some []⟩, none⟩
        (some 5)
        ∈ (EthSendDynamicFeeTx sampleClient sampleKeyStore "pw" alice bob (some 500)
            [mutateChainID 5, setGas 50000]).trace
      ∧ ∃ chainId amt d, sampleClient.ChainID = .ok chainId ∧ some (500 : Int) = some amt
          ∧ (⟨.DynamicFee ⟨some 5, 5, some 0, some 2, 50000, some bob.Address, some 500,
              some []⟩, none⟩ : Transaction).inner = .DynamicFee d
          ∧ d.ChainID = some 5 :=
  have hmem : Call.SignTx alice
      ⟨.DynamicFee ⟨some 5, 5, some 0, some 2, 50000, some bob.Address, some 500,
        some []⟩, none⟩
      (some 5)
      ∈ (EthSendDynamicFeeTx sampleClient sampleKeyStore "pw" alice bob (some 500)
          [mutateChainID 5, setGas 50000]).trace := by decide
  have h := (signer_chain_id_is_queried sampleClient sampleKeyStore "pw" alice bob (some 500)
    [mutateChainID 5, setGas 50000]).1 alice _ _ hmem
  ⟨hmem, by
    obtain ⟨chainId, amt, d, hc, ha, hd, -, -, hptr, -, -⟩ := h
    exact ⟨chainId, amt, d, hc, ha, hd, hptr rfl⟩⟩

/-- Two legacy option values with equal fields are equal. -/
theorem opt_eq_of_fields (x y : opt) (h1 : x.gasPrice = y.gasPrice)
    (h2 : x.gasLimit = y.gasLimit) (h3 : x.nonce = y.nonce) (h4 : x.data = y.data) :
    x = y := by
  cases x
  cases y
  simp_all

/-- The dynamic-fee body depends on the overrides only through the parameters as the
factory reads them and through the big integer the chain-id query returned. -/
theorem dynamic_exec_congr (eth_client : Client) (ks : KeyStore) (auth : String)
    (from_ to_ : Account) (amount : Option Int) (fn neverFn : List SetTxnData)
    (h : ∀ chainId amt, eth_client.ChainID = .ok chainId → amount = some amt →
      (applyFn fn (initialTxnState chainId to_ amt)).data.deref
          (applyFn fn (initialTxnState chainId to_ amt)).heap
        = (applyFn neverFn (initialTxnState chainId to_ amt)).data.deref
          (applyFn neverFn (initialTxnState chainId to_ amt)).heap
      ∧ (applyFn fn (initialTxnState chainId to_ amt)).heap .chainId
        = (applyFn neverFn (initialTxnState chainId to_ amt)).heap .chainId) :
    EthSendDynamicFeeTx.exec eth_client ks auth from_ to_ amount fn
      = EthSendDynamicFeeTx.exec eth_client ks auth from_ to_ amount neverFn := by
  unfold EthSendDynamicFeeTx.exec
  simp only []
  rcases hU : ks.Unlock from_ auth with _ | e
  swap
  · rfl
  rcases hB : eth_client.BalanceAt from_.Address with e | balance
  · rfl
  rcases amount with _ | amt
  · rfl
  by_cases hle : balance ≤ amt
  · simp only [hle, if_true]
  simp only [hle, if_false]
  rcases hC : eth_client.ChainID with e | chainId
  · rfl
  obtain ⟨hderef, hcid⟩ := h chainId amt hC rfl
  simp only []
  generalize applyFn fn (initialTxnState chainId to_ amt) = s at hderef hcid ⊢
  generalize applyFn neverFn (initialTxnState chainId to_ amt) = s0 at hderef hcid ⊢
  have hN : s.data.Nonce = s0.data.Nonce := congrArg DynamicFeeFields.Nonce hderef
  have hG : s.data.Gas = s0.data.Gas := congrArg DynamicFeeFields.Gas hderef
  have hF : s.data.GasFeeCap.map s.heap = s0.data.GasFeeCap.map s0.heap :=
    congrArg DynamicFeeFields.GasFeeCap hderef
  have hFn : (s.data.GasFeeCap = none) = (s0.data.GasFeeCap = none) := by
    apply propext
    rw [← Option.map_eq_none' (f := s.heap), ← Option.map_eq_none' (f := s0.heap), hF]
  simp only [hN, hG, hF, hFn, hcid, hderef]

/-- C10: zero is indistinguishable from unset. A call of `EthSendTransaction` whose
overrides leave the nonce at 0 (respectively the gas price at a value not above 0) is the
same run, with the same trace of collaborator calls and so the same queries and the same
transaction handed to the signer, as a call whose overrides never set that field and leave
the other fields alike; the pending-nonce (gas-price) query is made and the signed nonce
is the pending nonce (the signed gas price the suggested price). The same holds for a
nonce of 0 in `EthSendDynamicFeeTx`. When every step before the signing succeeds, the
signing call is made. -/
theorem zero_is_unset (eth_client : Client) (ks : KeyStore) (auth : String)
    (from_ to_ : Account) (amount : Option Int)
    (options never : List SendTxnOption) (fn neverFn : List SetTxnData) :
    (Keeps opt.nonce never →
        (applyOptions options {}).nonce = 0 →
        (applyOptions options {}).gasPrice = (applyOptions never {}).gasPrice →
        (applyOptions options {}).gasLimit = (applyOptions never {}).gasLimit →
        (applyOptions options {}).data = (applyOptions never {}).data →
        EthSendTransaction eth_client ks auth from_ to_ amount options
            = EthSendTransaction eth_client ks auth from_ to_ amount never
          ∧ (∀ a tx cid,
            Call.SignTx a tx cid
              ∈ (EthSendTransaction eth_client ks auth from_ to_ amount options).trace →
            Call.PendingNonceAt from_.Address
                ∈ (EthSendTransaction eth_client ks auth from_ to_ amount options).trace
              ∧ eth_client.PendingNonceAt from_.Address = .ok tx.Nonce)
          ∧ (∀ amt n p t c, StepsSucceed eth_client ks auth from_ amount amt n p t c →
            ∃ tx cid, Call.SignTx from_ tx cid
                ∈ (EthSendTransaction eth_client ks auth from_ to_ amount options).trace
              ∧ tx.Nonce = n))
      ∧ (Keeps opt.gasPrice never →
        (∃ q, (applyOptions options {}).gasPrice = some q ∧ q ≤ 0) →
        (applyOptions options {}).nonce = (applyOptions never {}).nonce →
        (applyOptions options {}).gasLimit = (applyOptions never {}).gasLimit →
        (applyOptions options {}).data = (applyOptions never {}).data →
        EthSendTransaction eth_client ks auth from_ to_ amount options
            = EthSendTransaction eth_client ks auth from_ to_ amount never
          ∧ (∀ a tx cid,
            Call.SignTx a tx cid
              ∈ (EthSendTransaction eth_client ks auth from_ to_ amount options).trace →
            Call.SuggestGasPrice
                ∈ (EthSendTransaction eth_client ks auth from_ to_ amount options).trace
              ∧ ∃ p, eth_client.SuggestGasPrice = .ok p ∧ tx.GasPrice = some p)
          ∧ (∀ amt n p t c, StepsSucceed eth_client ks auth from_ amount amt n p t c →
            ∃ tx cid, Call.SignTx from_ tx cid
                ∈ (EthSendTransaction eth_client ks auth from_ to_ amount options).trace
              ∧ tx.GasPrice = some p))
      ∧ (Keeps (fun s : TxnState => s.data.Nonce) neverFn →
        (∀ chainId amt, eth_client.ChainID = .ok chainId → amount = some amt →
          (applyFn fn (initialTxnState chainId to_ amt)).data.Nonce = 0
          ∧ { (applyFn fn (initialTxnState chainId to_ amt)).data.deref
                (applyFn fn (initialTxnState chainId to_ amt)).heap with Nonce := 0 }
            = { (applyFn neverFn (initialTxnState chainId to_ amt)).data.deref
                (applyFn neverFn (initialTxnState chainId to_ amt)).heap with Nonce := 0 }
          ∧ (applyFn fn (initialTxnState chainId to_ amt)).heap .chainId
            = (applyFn neverFn (initialTxnState chainId to_ amt)).heap .chainId) →
        EthSendDynamicFeeTx eth_client ks auth from_ to_ amount fn
            = EthSendDynamicFeeTx eth_client ks auth from_ to_ amount neverFn
          ∧ (∀ a tx cid,
            Call.SignTx a tx cid
              ∈ (EthSendDynamicFeeTx eth_client ks auth from_ to_ amount fn).trace →
            Call.PendingNonceAt from_.Address
                ∈ (EthSendDynamicFeeTx eth_client ks auth from_ to_ amount fn).trace
              ∧ eth_client.PendingNonceAt from_.Address = .ok tx.Nonce)
          ∧ (∀ amt n p t c, StepsSucceed eth_client ks auth from_ amount amt n p t c →
            ∃ tx cid, Call.SignTx from_ tx cid
                ∈ (EthSendDynamicFeeTx eth_client ks auth from_ to_ amount fn).trace
              ∧ tx.Nonce = n)) := by
  refine ⟨?_, ?_, ?_⟩
  · intro hk h0 hp hl hd
    have hn0 : (applyOptions never {}).nonce = 0 := foldl_keeps opt.nonce never hk {}
    have heq : applyOptions options {} = applyOptions never {} :=
      opt_eq_of_fields _ _ hp hl (h0.trans hn0.symm) hd
    have hall : ∀ a tx cid,
        Call.SignTx a tx cid
          ∈ (EthSendTransaction eth_client ks auth from_ to_ amount options).trace →
        Call.PendingNonceAt from_.Address
            ∈ (EthSendTransaction eth_client ks auth from_ to_ amount options).trace
          ∧ eth_client.PendingNonceAt from_.Address = .ok tx.Nonce := by
      intro a tx cid hmem
      obtain ⟨-, chainId, amt, nonce, gasPrice, -, -, -, -, rfl, hq, -, -, -⟩ :=
        legacy_signed eth_client ks auth from_ to_ amount options a tx cid hmem
      exact hq h0
    refine ⟨?_, hall, ?_⟩
    · unfold EthSendTransaction EthSendTransaction.exec
      rw [heq]
    · intro amt n p t c hsteps
      have hmem := legacy_reaches_signer eth_client ks auth from_ to_ amount options
        amt n p t c hsteps
      refine ⟨_, _, hmem, ?_⟩
      have h := (hall _ _ _ hmem).2
      rw [hsteps.2.2.2.1] at h
      exact (Except.ok.inj h).symm
  · rintro hk ⟨q, hq, hqle⟩ hn hl hd
    have hnone : (applyOptions never {}).gasPrice = none :=
      foldl_keeps opt.gasPrice never hk {}
    have hu : priceUnset (applyOptions options {}).gasPrice = true := by
      rw [hq]
      simp [priceUnset, hqle]
    have hu0 : priceUnset (applyOptions never {}).gasPrice = true := by
      rw [hnone]
      rfl
    have hall : ∀ a tx cid,
        Call.SignTx a tx cid
          ∈ (EthSendTransaction eth_client ks auth from_ to_ amount options).trace →
        Call.SuggestGasPrice
            ∈ (EthSendTransaction eth_client ks auth from_ to_ amount options).trace
          ∧ ∃ p, eth_client.SuggestGasPrice = .ok p ∧ tx.GasPrice = some p := by
      intro a tx cid hmem
      obtain ⟨-, chainId, amt, nonce, gasPrice, -, -, -, -, rfl, -, -, -, hset⟩ :=
        legacy_signed eth_client ks auth from_ to_ amount options a tx cid hmem
      obtain ⟨hm, p, hp, rfl⟩ := hset hu
      exact ⟨hm, p, hp, rfl⟩
    refine ⟨?_, hall, ?_⟩
    · unfold EthSendTransaction EthSendTransaction.exec
      simp only [hu, hu0, hn, hl, hd, ↓reduceIte]
    · intro amt n p t c hsteps
      have hmem := legacy_reaches_signer eth_client ks auth from_ to_ amount options
        amt n p t c hsteps
      refine ⟨_, _, hmem, ?_⟩
      obtain ⟨-, p0, hp0, hprice⟩ := hall _ _ _ hmem
      rw [hsteps.2.2.2.2.1] at hp0
      rw [hprice, Except.ok.inj hp0]
  · intro hk h
    have hall : ∀ a tx cid,
        Call.SignTx a tx cid
          ∈ (EthSendDynamicFeeTx eth_client ks auth from_ to_ amount fn).trace →
        Call.PendingNonceAt from_.Address
            ∈ (EthSendDynamicFeeTx eth_client ks auth from_ to_ amount fn).trace
          ∧ eth_client.PendingNonceAt from_.Address = .ok tx.Nonce := by
      intro a tx cid hmem
      obtain ⟨-, chainId, amt, s, nonce, gas, feeCap, hc, ha, hs, -, -, rfl, hq, -⟩ :=
        dynamic_signed eth_client ks auth from_ to_ amount fn a tx cid hmem
      have h0 : s.data.Nonce = 0 := by
        rw [← hs]
        exact (h chainId amt hc ha).1
      exact hq h0
    refine ⟨?_, hall, ?_⟩
    · have hexec := dynamic_exec_congr eth_client ks auth from_ to_ amount fn neverFn (by
        intro chainId amt hc ha
        obtain ⟨h0, hfields, hcid⟩ := h chainId amt hc ha
        have hn0 : (applyFn neverFn (initialTxnState chainId to_ amt)).data.Nonce = 0 :=
          foldl_keeps (fun s : TxnState => s.data.Nonce) neverFn hk _
        refine ⟨?_, hcid⟩
        generalize applyFn fn (initialTxnState chainId to_ amt) = s at h0 hfields
        generalize applyFn neverFn (initialTxnState chainId to_ amt) = s0 at hn0 hfields
        simp only [DynamicFeeTx.deref, DynamicFeeFields.mk.injEq] at hfields ⊢
        obtain ⟨e1, -, e3, e4, e5, e6, e7, e8⟩ := hfields
        exact ⟨e1, h0.trans hn0.symm, e3, e4, e5, e6, e7, e8⟩)
      unfold EthSendDynamicFeeTx
      rw [hexec]
    · intro amt n p t c hsteps
      obtain ⟨tx, cid, hmem⟩ := dynamic_reaches_signer eth_client ks auth from_ to_ amount fn
        amt n p t c hsteps
      refine ⟨tx, cid, hmem, ?_⟩
      have hnonce := (hall _ _ _ hmem).2
      rw [hsteps.2.2.2.1] at hnonce
      exact (Except.ok.inj hnonce).symm

/-- C10 at the sample node: an override writing nonce 0, an override writing gas price
-3 and a dynamic-fee override writing nonce 0 each give the run of the call that never
sets the field. -/
theorem zero_is_unset_witness :
    EthSendTransaction sampleClient sampleKeyStore "pw" alice bob (some 500)
        [withNonce 0, withGasLimit 50000]
      = EthSendTransaction sampleClient sampleKeyStore "pw" alice bob (some 500)
        [withGasLimit 50000]
    ∧ EthSendTransaction sampleClient sampleKeyStore "pw" alice bob (some 500)
        [withGasPrice (some (-3)), withGasLimit 50000]
      = EthSendTransaction sampleClient sampleKeyStore "pw" alice bob (some 500)
        [withGasLimit 50000]
    ∧ EthSendDynamicFeeTx sampleClient sampleKeyStore "pw" alice bob (some 500)
        [setNonce 0, setGas 50000]
      = EthSendDynamicFeeTx sampleClient sampleKeyStore "pw" alice bob (some 500)
        [setGas 50000] :=
  have hk : Keeps opt.nonce [withGasLimit 50000] := by
    intro f hf s
    rw [List.mem_singleton.mp hf]
    rfl
  have hkp : Keeps opt.gasPrice [withGasLimit 50000] := by
    intro f hf s
    rw [List.mem_singleton.mp hf]
    rfl
  have hkd : Keeps (fun s : TxnState => s.data.Nonce) [setGas 50000] := by
    intro f hf s
    rw [List.mem_singleton.mp hf]
    rfl
  ⟨((zero_is_unset sampleClient sampleKeyStore "pw" alice bob (some 500)
      [withNonce 0, withGasLimit 50000] [withGasLimit 50000] [] []).1
      hk rfl rfl rfl rfl).1,
    ((zero_is_unset sampleClient sampleKeyStore "pw" alice bob (some 500)
      [withGasPrice (some (-3)), withGasLimit 50000] [withGasLimit 50000] [] []).2.1
      hkp ⟨-3, rfl, by decide⟩ rfl rfl rfl).1,
    ((zero_is_unset sampleClient sampleKeyStore "pw" alice bob (some 500)
      [] [] [setNonce 0, setGas 50000] [setGas 50000]).2.2
      hkd (fun _ _ _ _ => ⟨rfl, rfl, rfl⟩)).1⟩

end Jsonrpc
